import Mathlib

/-!
Verification of the `create-dzx` scaffolding CLI (bin/index.js).

The development shallowly embeds the CLI's pure core: the slug
normalizer, the argv parser, the package-manager lockfile detector, the
recursive directory copy and listing, the two JSON manifest patches, and
the orchestrating `main` flow.  Filesystem state is modelled as a tree of
named entries; JSON documents are modelled by an inductive value type,
with `JSON.stringify(v, null, 2)` outputs represented by the `jsonFile`
content constructor (the 2-space indented serialization of the stored
value, with a flag recording whether a trailing newline was appended).
`String.prototype.toLowerCase` is modelled on the ASCII range, which is
the range the slug character class `[a-z0-9-_]` interacts with.
-/

namespace CreateDzx

/-! ## slugify (bin/index.js lines 14-21) -/

/-- Characters allowed by the regex class `[a-z0-9-_]` of `slugify`. -/
def isSlugChar (c : Char) : Bool :=
  ('a' ≤ c && c ≤ 'z') || ('0' ≤ c && c ≤ '9') || c = '-' || c = '_'

/-- Model of `String.prototype.toLowerCase` (ASCII range). -/
def toLowerCh (c : Char) : Char :=
  if 'A' ≤ c ∧ c ≤ 'Z' then Char.ofNat (c.toNat + 32) else c

/-- One step of `.replace(/[^a-z0-9-_]/g, "-")`: a character outside the
class is replaced by a dash. -/
def replaceBad (c : Char) : Char :=
  if isSlugChar c then c else '-'

/-- Model of the global replace of the regex "--+" by "-": every maximal
run of dashes is collapsed to a single dash. -/
def collapseDashes : List Char → List Char
  | [] => []
  | c :: rest =>
    match collapseDashes rest with
    | [] => [c]
    | d :: ds => if c = '-' ∧ d = '-' then d :: ds else c :: d :: ds

/-- Model of `.replace(/^-+/, "")`. -/
def trimLeadDash (l : List Char) : List Char :=
  l.dropWhile (fun c => c = '-')

/-- Model of the replace of the trailing-dash regex "-+$" by "". -/
def trimTrailDash (l : List Char) : List Char :=
  (l.reverse.dropWhile (fun c => c = '-')).reverse

/-- `slugify` on character lists: lowercase, replace characters outside
`[a-z0-9-_]` with `-`, collapse dash runs, trim leading and trailing
dashes. -/
def slugifyL (l : List Char) : List Char :=
  trimTrailDash (trimLeadDash (collapseDashes ((l.map toLowerCh).map replaceBad)))

/-- `slugify` from bin/index.js. -/
def slugify (s : String) : String :=
  ⟨slugifyL s.data⟩

/-- `true` when two adjacent dashes never occur. -/
def noDoubleDash : List Char → Bool
  | a :: b :: rest => !(a = '-' && b = '-') && noDoubleDash (b :: rest)
  | _ => true

/-- Characters from the class `[a-z0-9_]` (the slug class without the
dash), used by claim C9. -/
def isAlnumUnd (c : Char) : Bool :=
  ('a' ≤ c && c ≤ 'z') || ('0' ≤ c && c ≤ '9') || c = '_'

/-! ## String helpers (executable models of the string builtins used) -/

/-- Whether the first character list leads the second. -/
def beginsWithL : List Char → List Char → Bool
  | [], _ => true
  | _ :: _, [] => false
  | a :: as, b :: bs => a = b && beginsWithL as bs

/-- Model of `String.prototype.startsWith`. -/
def strBeginsWith (s pre : String) : Bool :=
  beginsWithL pre.data s.data

/-- Split a string at `/` separators (model of `split("/")` as
`path.resolve` tokenizes a path). -/
def splitSlashAux : List Char → List Char → List String
  | [], acc => [⟨acc.reverse⟩]
  | c :: rest, acc =>
    if c = '/' then ⟨acc.reverse⟩ :: splitSlashAux rest []
    else splitSlashAux rest (c :: acc)

/-- Split a path string into its slash-separated segments. -/
def splitSlash (s : String) : List String :=
  splitSlashAux s.data []

/-- ASCII whitespace, for the `trim` model. -/
def isWsCh (c : Char) : Bool :=
  c = ' ' || c = '\t' || c = '\n' || c = '\r'

/-- Model of `String.prototype.trim` (ASCII whitespace). -/
def trimStr (s : String) : String :=
  ⟨((s.data.dropWhile isWsCh).reverse.dropWhile isWsCh).reverse⟩

/-! ## parseArgs (bin/index.js lines 26-44) -/

/-- A value stored in the parsed-args map: `--key value` stores a string,
a bare `--key` stores the JS boolean `true`. -/
inductive ArgVal where
  | str (s : String)
  | flag
deriving DecidableEq

/-- Result of `parseArgs`: the flag map (in assignment order, later
assignments overwriting earlier ones in place) plus positional tokens. -/
structure ParsedArgs where
  keys : List (String × ArgVal)
  positional : List String
deriving DecidableEq

/-- JS object property update: replace the existing binding in place, or
append a new one. -/
def setKey : List (String × ArgVal) → String → ArgVal → List (String × ArgVal)
  | [], k, v => [(k, v)]
  | (k', v') :: rest, k, v =>
    if k' = k then (k, v) :: rest else (k', v') :: setKey rest k v

/-- JS object property lookup. -/
def getKey? : List (String × ArgVal) → String → Option ArgVal
  | [], _ => none
  | (k', v') :: rest, k => if k' = k then some v' else getKey? rest k

/-- The loop body of `parseArgs`: a token starting with `--` becomes a
key; if the following token exists and is truthy and does not start with
`--` it becomes the key's value and is consumed, otherwise the key maps
to `true`; other tokens are appended to the positional list. -/
def parseArgsGo : List String → ParsedArgs → ParsedArgs
  | [], acc => acc
  | arg :: rest, acc =>
    if strBeginsWith arg "--" then
      let key := arg.drop 2
      match rest with
      | [] => ⟨setKey acc.keys key .flag, acc.positional⟩
      | next :: rest2 =>
        if next ≠ "" ∧ ¬ strBeginsWith next "--" then
          parseArgsGo rest2 ⟨setKey acc.keys key (.str next), acc.positional⟩
        else
          parseArgsGo (next :: rest2) ⟨setKey acc.keys key .flag, acc.positional⟩
    else
      parseArgsGo rest ⟨acc.keys, acc.positional ++ [arg]⟩

/-- `parseArgs` from bin/index.js. -/
def parseArgs (argv : List String) : ParsedArgs :=
  parseArgsGo argv ⟨[], []⟩

/-- JS truthiness of a stored argument value. -/
def truthy : ArgVal → Bool
  | .flag => true
  | .str s => !(s == "")

/-- JS truthiness of `args[k]` (an absent key is `undefined`, falsy). -/
def truthyKey (a : ParsedArgs) (k : String) : Bool :=
  match getKey? a.keys k with
  | some v => truthy v
  | none => false

/-- The `shouldInstall` resolution of `main` (lines 276-280):
`args.install ? true : args["no-install"] ? false : true`. -/
def shouldInstallOf (a : ParsedArgs) : Bool :=
  if truthyKey a "install" then true
  else if truthyKey a "no-install" then false
  else true

/-! ## detectPackageManager (bin/index.js lines 94-123) -/

/-- The lockfile table, in the insertion order of the object literal
(which `Object.entries` preserves). -/
def lockfilePairs : List (String × String) :=
  [("pnpm-lock.yaml", "pnpm"), ("package-lock.json", "npm"),
   ("yarn.lock", "yarn"), ("bun.lockb", "bun")]

/-- The four probed lockfile names. -/
def lockfileNames : List String := lockfilePairs.map Prod.fst

/-- A directory path, as its list of components below the root; `[]` is
the filesystem root.  `path.dirname` drops the last component and is the
identity on the root. -/
def dirnameOf (d : List String) : List String := d.dropLast

/-- Probe one directory for the four lockfiles in table order, through a
filesystem-existence oracle. -/
def probeDir (fs : List String → String → Bool) (d : List String) : Option String :=
  (lockfilePairs.find? (fun p => fs d p.1)).map Prod.snd

/-- The ancestor loop of `detectPackageManager`: up to `n` iterations,
each stepping to the parent, stopping early at the root, probing each
parent visited. -/
def detectLoop (fs : List String → String → Bool) : List String → Nat → String
  | _, 0 => "pnpm"
  | current, Nat.succ k =>
    let parent := dirnameOf current
    if parent = current then "pnpm"
    else
      match probeDir fs parent with
      | some pm => pm
      | none => detectLoop fs parent k

/-- `detectPackageManager` from bin/index.js: probe the starting
directory, then up to 5 ancestors, defaulting to `"pnpm"`. -/
def detectPackageManager (fs : List String → String → Bool) (cwd : List String) : String :=
  match probeDir fs cwd with
  | some pm => pm
  | none => detectLoop fs cwd 5

/-- The chain of ancestor directories the loop visits: up to `n` parents,
stopping when the parent equals the current directory (the root). -/
def ancestorChain (d : List String) : Nat → List (List String)
  | 0 => []
  | Nat.succ k =>
    let parent := dirnameOf d
    if parent = d then [] else parent :: ancestorChain parent k

/-- All directories `detectPackageManager` probes, in probe order. -/
def probedDirs (cwd : List String) : List (List String) :=
  cwd :: ancestorChain cwd 5

/-- Modelled from the spec's words (section 4.2): return the identifier
mapped to the first lockfile found, probing the starting directory and
then each ancestor up to 5 levels, defaulting to a fixed identifier. -/
def specDetect (fs : List String → String → Bool) (cwd : List String) : String :=
  match (probedDirs cwd).findSome? (probeDir fs) with
  | some pm => pm
  | none => "pnpm"

/-! ## Path resolution (node:path, as used by main) -/

/-- Fold of path segments: empty and `"."` segments are skipped, `".."`
pops the accumulated path, anything else is appended.  Models the
normalization `path.resolve` performs on an absolute base. -/
def normalizeSegs : List String → List String → List String
  | acc, [] => acc
  | acc, seg :: rest =>
    if seg = "" ∨ seg = "." then normalizeSegs acc rest
    else if seg = ".." then normalizeSegs acc.dropLast rest
    else normalizeSegs (acc ++ [seg]) rest

/-- Model of `path.resolve(cwd, p)` for a string `p`: an absolute `p`
replaces `cwd`, a relative `p` is appended, and the result is
normalized.  Paths are component lists below the root. -/
def resolvePath (cwd : List String) (p : String) : List String :=
  if strBeginsWith p "/" then normalizeSegs [] (splitSlash p)
  else normalizeSegs cwd (splitSlash p)

/-- Model of `path.basename` on a resolved (absolute) path. -/
def basenameOf (p : List String) : String :=
  (p.getLast?).getD ""

/-! ## JSON documents and file contents -/

/-- JSON values, as produced by `JSON.parse`.  Numbers are modelled as
integers; no claim involves non-integral numerics. -/
inductive Json where
  | null
  | bool (b : Bool)
  | num (n : Int)
  | str (s : String)
  | arr (xs : List Json)
  | obj (fields : List (String × Json))

/-- JS object property read on a parsed JSON object. -/
def objGet : List (String × Json) → String → Option Json
  | [], _ => none
  | (k', v') :: rest, k => if k' = k then some v' else objGet rest k

/-- JS object property write: overwrite the binding in place, or append
a new one. -/
def objSet : List (String × Json) → String → Json → List (String × Json)
  | [], k, v => [(k, v)]
  | (k', v') :: rest, k, v =>
    if k' = k then (k, v) :: rest else (k', v') :: objSet rest k v

/-- JS truthiness of a JSON value. -/
def jsTruthy : Json → Bool
  | .null => false
  | .bool b => b
  | .num n => !(n == 0)
  | .str s => !(s == "")
  | .arr _ => true
  | .obj _ => true

/-- Contents of a regular file.  `jsonFile j nl` stands for the text
`JSON.stringify(j, null, 2)` (2-space indented), followed by a trailing
newline when `nl` is true; `rawFile s` is any content that `JSON.parse`
rejects. -/
inductive FileContent where
  | jsonFile (j : Json) (trailingNewline : Bool)
  | rawFile (s : String)

/-! ## Filesystem trees -/

/-- A filesystem node: a regular file with contents, or a directory with
a list of named entries in readdir order. -/
inductive FSTree where
  | file (c : FileContent)
  | dir (entries : List (String × FSTree))

/-- Entry lookup by name inside one directory. -/
def lookupEntry : List (String × FSTree) → String → Option FSTree
  | [], _ => none
  | (m, u) :: rest, n => if m = n then some u else lookupEntry rest n

/-- Entry write inside one directory: replace in place, or append. -/
def setEntry : List (String × FSTree) → String → FSTree → List (String × FSTree)
  | [], n, t => [(n, t)]
  | (m, u) :: rest, n, t =>
    if m = n then (n, t) :: rest else (m, u) :: setEntry rest n t

/-- Walk a relative path (component list) inside a tree. -/
def getPath : FSTree → List String → Option FSTree
  | t, [] => some t
  | .file _, _ :: _ => none
  | .dir es, n :: rest =>
    match lookupEntry es n with
    | some t => getPath t rest
    | none => none

/-- `fs.existsSync(path.join(base, rel))` where `base` may itself not
exist: the state at the base is an optional tree. -/
def existsAt (base : Option FSTree) (rel : List String) : Bool :=
  match base with
  | none => false
  | some t => (getPath t rel).isSome

/-- Entry names of a directory. -/
def namesOf (es : List (String × FSTree)) : List String := es.map Prod.fst

/-- No duplicated names. -/
def namesNodup : List String → Bool
  | [] => true
  | n :: rest => !(rest.contains n) && namesNodup rest

mutual
/-- Well-formed filesystem tree: every directory has pairwise distinct
entry names (as real filesystems guarantee). -/
def wfTree : FSTree → Bool
  | .file _ => true
  | .dir es => namesNodup (namesOf es) && wfEntries es
def wfEntries : List (String × FSTree) → Bool
  | [] => true
  | (_, t) :: rest => wfTree t && wfEntries rest
end

/-! ## listFiles (bin/index.js lines 57-72) -/

/-- Lexicographic order on character lists, by code point. -/
def charListLe : List Char → List Char → Bool
  | [], _ => true
  | _ :: _, [] => false
  | a :: as, b :: bs =>
    if a < b then true
    else if b < a then false
    else charListLe as bs

/-- Executable string order for the by-name sort. -/
def strLeB (s t : String) : Bool := charListLe s.data t.data

/-- Insert a keyed item into a key-sorted list (ascending keys), keeping
earlier items first among equal keys. -/
def insortKey {α : Type} : (String × α) → List (String × α) → List (String × α)
  | p, [] => [p]
  | p, q :: rest => if strLeB p.1 q.1 then p :: q :: rest else q :: insortKey p rest

/-- Sort a keyed list by key.  Models the by-name `localeCompare` sort of
`listFiles` (locale collation is modelled by code-point string order;
entry names of a real directory are pairwise distinct, so the listing
claims, which are about path sets, do not depend on the collation). -/
def sortByKey {α : Type} : List (String × α) → List (String × α)
  | [] => []
  | p :: rest => insortKey p (sortByKey rest)

mutual
/-- The per-entry contribution blocks of one directory level, keyed by
entry name for the by-name sort. -/
def listBlocks : List (String × FSTree) → List (String × List (List String))
  | [] => []
  | (n, t) :: rest => (n, listEntry n t) :: listBlocks rest
/-- The paths one named entry contributes: a file contributes its own
name, a directory contributes its recursive listing prefixed with its
name. -/
def listEntry (n : String) : FSTree → List (List String)
  | .file _ => [[n]]
  | .dir ses =>
    (((sortByKey (listBlocks ses)).map Prod.snd).flatten).map (fun p => n :: p)
end

/-- The relative file paths below a node, sorted per directory level by
entry name, directories recursed into, files reported: `listFiles` from
bin/index.js.  Paths are component lists relative to the node. -/
def listFiles : FSTree → List (List String)
  | .file _ => []
  | .dir es => ((sortByKey (listBlocks es)).map Prod.snd).flatten

/-! ## copyDir (bin/index.js lines 77-89) -/

mutual
/-- The entry loop of `copyDir`, threading the destination's current
entry list: each source entry is copied into the destination slot of the
same name. -/
def copyEntries (es acc : List (String × FSTree)) : Except String (List (String × FSTree)) :=
  match es with
  | [] => .ok acc
  | (n, t) :: rest =>
    match copyEntryInto t (lookupEntry acc n) with
    | .error e => .error e
    | .ok sub => copyEntries rest (setEntry acc n sub)
/-- Copy one source node over a destination slot.  A file is
`copyFileSync`-ed (failing when the destination is an existing
directory, overwriting an existing file); a directory recurses after
`mkdirSync` with `recursive` (which fails when the destination is an
existing file). -/
def copyEntryInto (t : FSTree) (dest : Option FSTree) : Except String FSTree :=
  match t with
  | .file c =>
    match dest with
    | some (.dir _) => .error "EISDIR"
    | _ => .ok (.file c)
  | .dir ses =>
    match dest with
    | some (.file _) => .error "EEXIST"
    | some (.dir des) => (copyEntries ses des).map FSTree.dir
    | none => (copyEntries ses []).map FSTree.dir
end

/-- `copyDir(src, dest)`: `mkdirSync(dest, recursive)` (which fails when
`dest` is an existing file), then copy each entry of `src` through
`copyEntries`.  Returns the resulting entry list of the destination
directory.  `readdirSync` fails when `src` is a file. -/
def copyDir (src : FSTree) (dest : Option FSTree) : Except String (List (String × FSTree)) :=
  match src with
  | .file _ => .error "ENOTDIR"
  | .dir es =>
    match dest with
    | some (.file _) => .error "EEXIST"
    | some (.dir des) => copyEntries es des
    | none => copyEntries es []

/-! ## isEmptyDir (bin/index.js lines 49-52) -/

/-- `isEmptyDir`: true when the directory is missing or empty;
`readdirSync` throws when the path names a regular file. -/
def isEmptyDirM : Option FSTree → Except Unit Bool
  | none => .ok true
  | some (.file _) => .error ()
  | some (.dir es) => .ok es.isEmpty

/-! ## Manifest patches (bin/index.js lines 457-474) and getDzxVersion -/

/-- The mcp.json patch (lines 459-463): parse, set `name`, set
`runtime`, re-serialize with 2-space indentation and no trailing
newline.  Errors: unparsable contents, or a parsed document that is not
an object (strict-mode property assignment on a primitive throws). -/
def mcpPatch (c : FileContent) (nm rt : String) : Except Unit FileContent :=
  match c with
  | .rawFile _ => .error ()
  | .jsonFile (.obj fields) _ =>
    .ok (.jsonFile (.obj (objSet (objSet fields "name" (.str nm)) "runtime" (.str rt)))
          false)
  | .jsonFile _ _ => .error ()

/-- The package.json patch (lines 468-474): parse; when
`pkg.dependencies` is an object owning a truthy `@dwizi/dzx` entry,
overwrite that entry with `^` ++ version and re-serialize with 2-space
indentation plus a trailing newline; otherwise leave the file alone.
Returns `none` when the file is not rewritten. -/
def pkgPatch (c : FileContent) (ver : String) : Except Unit (Option FileContent) :=
  match c with
  | .rawFile _ => .error ()
  | .jsonFile (.obj fields) _ =>
    match objGet fields "dependencies" with
    | some (.obj deps) =>
      match objGet deps "@dwizi/dzx" with
      | some v =>
        if jsTruthy v then
          .ok (some (.jsonFile (.obj (objSet fields "dependencies"
                (.obj (objSet deps "@dwizi/dzx" (.str ("^" ++ ver)))))) true))
        else .ok none
      | none => .ok none
    | some _ => .ok none
    | none => .ok none
  | .jsonFile .null _ => .error ()
  | .jsonFile _ _ => .ok none

/-- `getDzxVersion` (lines 254-267), over the resolution outcome: `some
raw` when resolving and parsing the installed package manifest succeeded
and its `version` field was a string, `none` otherwise.  A blank version
also falls back to the wildcard. -/
def getDzxVersionOf (dzx : Option String) : String :=
  match dzx with
  | some s => if trimStr s = "" then "*" else trimStr s
  | none => "*"

/-! ## The orchestrator (main, bin/index.js lines 272-521) -/

/-- Answers of the interactive prompt collaborator; `none` models
cancellation. -/
structure Prompts where
  dirResponse : Option String
  templateResponse : Option String
  runtimeResponse : Option String
  confirmResponse : Option Bool

/-- The world `main` runs against: the entries of the local templates
root (`none` when that directory does not exist, in which case the
fallback root under the working directory is consulted), the state of
the resolved target directory, the `@dwizi/dzx` version-resolution
outcome, an existence oracle for the lockfile probes of
`detectPackageManager`, and whether a spawned install would succeed. -/
structure World where
  localTemplates : Option (List (String × FSTree))
  fallbackTemplates : Option (List (String × FSTree))
  target : Option FSTree
  dzx : Option String
  probe : List String → String → Bool
  installOk : Bool

/-- The failure outcomes of a run. -/
inductive MainErr where
  | cancelled
  | typeError
  | unknownTemplate (v : ArgVal)
  | unknownRuntime (v : ArgVal)
  | dirNotEmpty (dir : List String)
  | templateNotFound (t : String)
  | refuseOverwrite (collisions : List (List String))
  | notDirectory
  | copyFailed
  | manifestError
  | missingManifest
  | installFailed (cmd : String)
deriving DecidableEq

/-- The conflicting entries a failure message lists: the
`refuseOverwrite` message previews the first 8 collision paths (slice 0
8); every other message lists none. -/
def listedEntries : MainErr → List (List String)
  | .refuseOverwrite cs => cs.take 8
  | _ => []

/-- Whether the failure message carries the `- ...` truncation line,
appended exactly when more than 8 collisions exist. -/
def hasTruncationMark : MainErr → Bool
  | .refuseOverwrite cs => decide (8 < cs.length)
  | _ => false

/-- Observable outcome of one invocation: the result, the final world,
whether the usage text was printed, and the spawned shell commands. -/
structure MainOut where
  result : Except MainErr Unit
  world : World
  helpShown : Bool
  spawned : List String

/-- Lines 303-306: `args.dir ?? args.positional[0]`, defaulted with `||`
to `"my-agent"`; `path.resolve` throws a TypeError when handed the
boolean a bare `--dir` stores. -/
def resolveDirVal (a : ParsedArgs) : Except MainErr String :=
  match getKey? a.keys "dir" with
  | some (.str s) => .ok (if s = "" then "my-agent" else s)
  | some .flag => .error .typeError
  | none =>
    match a.positional.head? with
    | some s => .ok (if s = "" then "my-agent" else s)
    | none => .ok "my-agent"

/-- Lines 306-317: resolve the target directory, prompting (with
possible cancellation) unless `--yes`; an empty prompt answer falls back
to the default directory. -/
def resolveTargetDir (a : ParsedArgs) (isYes : Bool) (pr : Prompts) (cwd : List String) :
    Except MainErr (List String) :=
  match resolveDirVal a with
  | .error e => .error e
  | .ok d =>
    if isYes then .ok (resolvePath cwd d)
    else
      match pr.dirResponse with
      | none => .error .cancelled
      | some r => .ok (resolvePath cwd (if r = "" then "my-agent" else r))

/-- Lines 319-335 and 337-352: an explicit truthy flag wins, else the
fixed default under `--yes`, else the interactive selection (cancellable). -/
def resolveChoice (explicit : Option ArgVal) (isYes : Bool) (dflt : String)
    (resp : Option String) : Except MainErr ArgVal :=
  match explicit with
  | some v =>
    if truthy v then .ok v
    else if isYes then .ok (.str dflt)
    else
      match resp with
      | none => .error .cancelled
      | some r => .ok (.str r)
  | none =>
    if isYes then .ok (.str dflt)
    else
      match resp with
      | none => .error .cancelled
      | some r => .ok (.str r)

/-- The closed template enum. -/
def TEMPLATES : List String := ["basic", "tools-only", "full"]

/-- The closed runtime enum. -/
def RUNTIMES : List String := ["node", "deno"]

/-- Lines 357-359. -/
def checkTemplate (v : ArgVal) : Except MainErr String :=
  match v with
  | .str s => if TEMPLATES.contains s then .ok s else .error (.unknownTemplate v)
  | .flag => .error (.unknownTemplate v)

/-- Lines 360-362. -/
def checkRuntime (v : ArgVal) : Except MainErr String :=
  match v with
  | .str s => if RUNTIMES.contains s then .ok s else .error (.unknownRuntime v)
  | .flag => .error (.unknownRuntime v)

/-- `resolveTemplatesRoot` (lines 150-156): the local root when it
exists, otherwise the fallback under the working directory; then the
template subdirectory lookup of line 369. -/
def templateLookup (w : World) (t : String) : Option FSTree :=
  match w.localTemplates with
  | some es => lookupEntry es t
  | none =>
    match w.fallbackTemplates with
    | some es => lookupEntry es t
    | none => none

/-- `listFiles` applied at a possibly missing path (line 58 returns `[]`
for a missing directory; `readdirSync` throws on a file). -/
def listFilesAt : Option FSTree → Except MainErr (List (List String))
  | none => .ok []
  | some (.file _) => .error .notDirectory
  | some (.dir es) => .ok (listFiles (.dir es))

/-- Lines 374-383: under `--force` without `--yes`, require an explicit
confirmation; declining or cancelling aborts. -/
def confirmCheck (a : ParsedArgs) (pr : Prompts) : Except MainErr Unit :=
  if truthyKey a "force" && !(truthyKey a "yes") then
    match pr.confirmResponse with
    | some true => .ok ()
    | _ => .error .cancelled
  else .ok ()

/-- Lines 439-452: without `--force`, refuse when any template file
already exists at the destination, carrying the collision list. -/
def collisionCheck (a : ParsedArgs) (w : World) (ttree : FSTree) : Except MainErr Unit :=
  if truthyKey a "force" then .ok ()
  else
    match listFilesAt (some ttree) with
    | .error e => .error e
    | .ok tfiles =>
      let collisions := tfiles.filter (fun p => existsAt w.target p)
      if collisions.isEmpty then .ok () else .error (.refuseOverwrite collisions)

/-- The resolved configuration a run scaffolds with. -/
structure Cfg where
  targetDir : List String
  template : String
  runtime : String
  tTree : FSTree

/-- The pre-copy part of `main` (lines 303-452), in source order:
resolve the directory, the template and the runtime; validate both enums;
reject a non-empty destination without `--force`; resolve the template
directory; confirm a forced overwrite; check collisions.  No filesystem
mutation happens in this phase. -/
def phase1 (a : ParsedArgs) (cwd : List String) (pr : Prompts) (w : World) :
    Except MainErr Cfg :=
  match resolveTargetDir a (truthyKey a "yes") pr cwd with
  | .error e => .error e
  | .ok targetDir =>
    match resolveChoice (getKey? a.keys "template") (truthyKey a "yes") "basic"
        pr.templateResponse with
    | .error e => .error e
    | .ok tv =>
      match resolveChoice (getKey? a.keys "runtime") (truthyKey a "yes") "node"
          pr.runtimeResponse with
      | .error e => .error e
      | .ok rv =>
        match checkTemplate tv with
        | .error e => .error e
        | .ok template =>
          match checkRuntime rv with
          | .error e => .error e
          | .ok runtime =>
            match isEmptyDirM w.target with
            | .error _ => .error .notDirectory
            | .ok empty =>
              if !(truthyKey a "force") && !empty then .error (.dirNotEmpty targetDir)
              else
                match templateLookup w template with
                | none => .error (.templateNotFound template)
                | some ttree =>
                  match confirmCheck a pr with
                  | .error e => .error e
                  | .ok _ =>
                    match collisionCheck a w ttree with
                    | .error e => .error e
                    | .ok _ => .ok ⟨targetDir, template, runtime, ttree⟩

/-- The mcp.json step (lines 457-464): a no-op when the file is absent;
`readFileSync` fails on a directory of that name; otherwise patch and
rewrite. -/
def mcpStep (es : List (String × FSTree)) (nm rt : String) :
    Except MainErr (List (String × FSTree)) :=
  match lookupEntry es "mcp.json" with
  | none => .ok es
  | some (.dir _) => .error .manifestError
  | some (.file c) =>
    match mcpPatch c nm rt with
    | .error _ => .error .manifestError
    | .ok c2 => .ok (setEntry es "mcp.json" (.file c2))

/-- The package.json step (lines 466-474): a no-op when the file is
absent or the patch declines to rewrite. -/
def pkgStep (es : List (String × FSTree)) (ver : String) :
    Except MainErr (List (String × FSTree)) :=
  match lookupEntry es "package.json" with
  | none => .ok es
  | some (.dir _) => .error .manifestError
  | some (.file c) =>
    match pkgPatch c ver with
    | .error _ => .error .manifestError
    | .ok none => .ok es
    | .ok (some c2) => .ok (setEntry es "package.json" (.file c2))

/-- The mutating tail of `main` (lines 454-520): copy the template tree,
patch the two manifests, then install when requested (requiring a
package manifest, detecting the package manager at the destination and
spawning its install command).  Each partial world is kept on failure:
the scaffold is never rolled back. -/
def scaffold (a : ParsedArgs) (cfg : Cfg) (w : World) : MainOut :=
  match copyDir cfg.tTree w.target with
  | .error _ => ⟨.error .copyFailed, w, false, []⟩
  | .ok newEntries =>
    let w1 : World := { w with target := some (.dir newEntries) }
    match mcpStep newEntries (slugify (basenameOf cfg.targetDir)) cfg.runtime with
    | .error e => ⟨.error e, w1, false, []⟩
    | .ok es2 =>
      let w2 : World := { w with target := some (.dir es2) }
      match pkgStep es2 (getDzxVersionOf w.dzx) with
      | .error e => ⟨.error e, w2, false, []⟩
      | .ok es3 =>
        let w3 : World := { w with target := some (.dir es3) }
        if shouldInstallOf a then
          match lookupEntry es3 "package.json" with
          | none => ⟨.error .missingManifest, w3, false, []⟩
          | some _ =>
            let cmd := detectPackageManager w.probe cfg.targetDir ++ " install"
            if w.installOk then ⟨.ok (), w3, false, [cmd]⟩
            else ⟨.error (.installFailed cmd), w3, false, [cmd]⟩
        else ⟨.ok (), w3, false, []⟩

/-- One full invocation of the CLI (lines 272-521): parse argv, serve
the help text when `args.help` or `args.h` is truthy, otherwise run the
pre-copy phase and then scaffold. -/
def runMain (argv : List String) (cwd : List String) (pr : Prompts) (w : World) : MainOut :=
  let a := parseArgs argv
  if truthyKey a "help" || truthyKey a "h" then ⟨.ok (), w, true, []⟩
  else
    match phase1 a cwd pr w with
    | .error e => ⟨.error e, w, false, []⟩
    | .ok cfg => scaffold a cfg w

/-! ## Content erasure (listing depends only on names and shape) -/

mutual
/-- Erase file contents, keeping names and shape. -/
def eraseTree : FSTree → FSTree
  | .file _ => .file (.rawFile "")
  | .dir es => .dir (eraseEntries es)
def eraseEntries : List (String × FSTree) → List (String × FSTree)
  | [] => []
  | (n, t) :: rest => (n, eraseTree t) :: eraseEntries rest
end

/-! ## Decidable hypotheses used by the run-level claims -/

/-- The directory-resolution step completes (no cancellation, no
TypeError). -/
def targetDirResolves (argv : List String) (pr : Prompts) (cwd : List String) : Bool :=
  match resolveTargetDir (parseArgs argv) (truthyKey (parseArgs argv) "yes") pr cwd with
  | .ok _ => true
  | .error _ => false

/-- The template resolves (flag, default or prompt) to a member of the
closed template enum. -/
def templateResolvesValid (argv : List String) (pr : Prompts) : Bool :=
  match resolveChoice (getKey? (parseArgs argv).keys "template")
      (truthyKey (parseArgs argv) "yes") "basic" pr.templateResponse with
  | .ok (.str s) => TEMPLATES.contains s
  | _ => false

/-- The runtime resolves to a member of the closed runtime enum. -/
def runtimeResolvesValid (argv : List String) (pr : Prompts) : Bool :=
  match resolveChoice (getKey? (parseArgs argv).keys "runtime")
      (truthyKey (parseArgs argv) "yes") "node" pr.runtimeResponse with
  | .ok (.str s) => RUNTIMES.contains s
  | _ => false

/-- A manifest entry is absent, or is a file whose contents parse to a
JSON object (the shape spec section 4.4 expects of template files). -/
def entryIsJsonObjFile : Option FSTree → Bool
  | none => true
  | some (.file (.jsonFile (.obj _) _)) => true
  | _ => false

/-- Both patchable manifests of a template directory are either absent
or JSON-object files. -/
def manifestsOk (es : List (String × FSTree)) : Bool :=
  entryIsJsonObjFile (lookupEntry es "mcp.json") &&
  entryIsJsonObjFile (lookupEntry es "package.json")

/-- The argv of claim C1's end-to-end invocation. -/
def c1Argv : List String :=
  ["--dir", "./out", "--template", "tools-only", "--runtime", "node", "--yes", "--no-install"]

/-- Prompt answers that cancel everything (no interaction happens in the
non-interactive runs below). -/
def pr0 : Prompts := ⟨none, none, none, none⟩

/-- An empty world: no templates anywhere, no target, no resolvable
`@dwizi/dzx`, no lockfiles. -/
def w0 : World := ⟨none, none, none, none, fun _ _ => false, true⟩

/-- A package manifest whose `@dwizi/dzx` dependency entry is present
but falsy (the empty string). -/
def c8Pkg : FileContent :=
  .jsonFile (.obj [("dependencies", .obj [("@dwizi/dzx", .str "")])]) true

/-- A destination directory holding only that manifest. -/
def c8Es : List (String × FSTree) := [("package.json", .file c8Pkg)]

/-- A well-formed package manifest (for the C8 witness). -/
def pkgWFields : List (String × Json) :=
  [("name", .str "x"), ("dependencies", .obj [("@dwizi/dzx", .str "^1.0.0")])]

/-- Its dependency map. -/
def pkgWDeps : List (String × Json) := [("@dwizi/dzx", .str "^1.0.0")]

/-- A world whose target already holds `a.txt`, which the `tools-only`
template would also create. -/
def c7W : World :=
  { w0 with
    localTemplates := some [("tools-only", .dir [("a.txt", .file (.rawFile "T"))])],
    target := some (.dir [("a.txt", .file (.rawFile "U"))]) }

/-- A world whose target directory is an existing non-empty directory. -/
def c3W : World := { w0 with target := some (.dir [("x.txt", .file (.rawFile "v"))]) }

/-- A realistic `tools-only` template tree: a runtime-config manifest, a
package manifest depending on `@dwizi/dzx`, and a source file. -/
def c1Tes : List (String × FSTree) :=
  [("mcp.json", .file (.jsonFile (.obj
      [("name", .str "template"), ("runtime", .str "deno")]) false)),
   ("package.json", .file (.jsonFile (.obj
      [("dependencies", .obj [("@dwizi/dzx", .str "^0.1.0")])]) true)),
   ("src", .dir [("server.ts", .file (.rawFile "code"))])]

/-- A world carrying that template at the local root, an empty (missing)
target, and a resolvable `@dwizi/dzx` version. -/
def c1W : World :=
  { w0 with
    localTemplates := some [("tools-only", FSTree.dir c1Tes)]
    dzx := some "1.2.3" }

/-! ## Lemmas: JSON object read and write -/

theorem objGet_objSet_same (fs : List (String × Json)) (k : String) (v : Json) :
    objGet (objSet fs k v) k = some v := by
  induction fs with
  | nil => simp [objSet, objGet]
  | cons p rest ih =>
    obtain ⟨k', v'⟩ := p
    by_cases h : k' = k
    · simp [objSet, objGet, h]
    · simp [objSet, objGet, h, ih]

theorem objGet_objSet_ne (fs : List (String × Json)) (k : String) (v : Json)
    (k' : String) (h : k' ≠ k) : objGet (objSet fs k v) k' = objGet fs k' := by
  induction fs with
  | nil => simp [objSet, objGet, Ne.symm h]
  | cons p rest ih =>
    obtain ⟨k2, v2⟩ := p
    by_cases h2 : k2 = k
    · subst h2
      simp [objSet, objGet, Ne.symm h]
    · by_cases h3 : k2 = k'
      · simp [objSet, objGet, h2, h3, h]
      · simp [objSet, objGet, h2, h3, ih]

theorem lookup_setEntry_same (es : List (String × FSTree)) (n : String) (t : FSTree) :
    lookupEntry (setEntry es n t) n = some t := by
  induction es with
  | nil => simp [setEntry, lookupEntry]
  | cons p rest ih =>
    obtain ⟨m, u⟩ := p
    by_cases h : m = n
    · simp [setEntry, lookupEntry, h]
    · simp [setEntry, lookupEntry, h, ih]

theorem lookup_setEntry_ne (es : List (String × FSTree)) (n : String) (t : FSTree)
    (n' : String) (h : n' ≠ n) : lookupEntry (setEntry es n t) n' = lookupEntry es n' := by
  induction es with
  | nil => simp [setEntry, lookupEntry, Ne.symm h]
  | cons p rest ih =>
    obtain ⟨m, u⟩ := p
    by_cases h2 : m = n
    · subst h2
      simp [setEntry, lookupEntry, Ne.symm h]
    · by_cases h3 : m = n'
      · simp [setEntry, lookupEntry, h2, h3, h]
      · simp [setEntry, lookupEntry, h2, h3, ih]

/-! ## Lemmas: slugify -/

theorem toLowerCh_fix (c : Char) (h : isSlugChar c = true) : toLowerCh c = c := by
  unfold toLowerCh
  split
  · next hc =>
    exfalso
    simp only [isSlugChar, Bool.or_eq_true, Bool.and_eq_true, decide_eq_true_eq,
      beq_iff_eq] at h
    rcases h with (((⟨h1, _⟩ | ⟨_, h2⟩) | h1) | h1)
    · exact absurd (le_trans h1 hc.2) (by decide)
    · exact absurd (le_trans hc.1 h2) (by decide)
    · subst h1; exact absurd hc.1 (by decide)
    · subst h1; exact absurd hc.2 (by decide)
  · rfl

theorem replaceBad_slug (c : Char) : isSlugChar (replaceBad c) = true := by
  unfold replaceBad
  split
  · assumption
  · decide

theorem replaceBad_fix (c : Char) (h : isSlugChar c = true) : replaceBad c = c := by
  simp [replaceBad, h]

theorem replaceBad_dash (c : Char) (h : isAlnumUnd c = false) : replaceBad c = '-' := by
  unfold replaceBad
  split
  · next hs =>
    simp only [isSlugChar, Bool.or_eq_true, Bool.and_eq_true, decide_eq_true_eq] at hs
    rcases hs with (((h1 | h1) | h1) | h1)
    · have ha : isAlnumUnd c = true := by simp [isAlnumUnd, h1.1, h1.2]
      simp [ha] at h
    · have ha : isAlnumUnd c = true := by simp [isAlnumUnd, h1.1, h1.2]
      simp [ha] at h
    · exact h1
    · have ha : isAlnumUnd c = true := by simp [isAlnumUnd, h1]
      simp [ha] at h
  · rfl

/-- The cons unfolding of `collapseDashes`. -/
theorem collapseDashes_cons (a : Char) (rest : List Char) :
    collapseDashes (a :: rest) =
      match collapseDashes rest with
      | [] => [a]
      | d :: ds => if a = '-' ∧ d = '-' then d :: ds else a :: d :: ds := rfl

theorem mem_collapseDashes (l : List Char) (c : Char) (h : c ∈ collapseDashes l) :
    c ∈ l := by
  induction l with
  | nil => simp [collapseDashes] at h
  | cons a rest ih =>
    rcases hc : collapseDashes rest with _ | ⟨d, ds⟩
    · have e : collapseDashes (a :: rest) = [a] := by rw [collapseDashes_cons, hc]
      rw [e] at h
      simp only [List.mem_singleton] at h
      simp [h]
    · have e : collapseDashes (a :: rest) =
          (if a = '-' ∧ d = '-' then d :: ds else a :: d :: ds) := by
        rw [collapseDashes_cons, hc]
      rw [e] at h
      by_cases hd : a = '-' ∧ d = '-'
      · rw [if_pos hd] at h
        exact List.mem_cons_of_mem a (ih (hc ▸ h))
      · rw [if_neg hd] at h
        rcases List.mem_cons.mp h with h1 | h1
        · simp [h1]
        · exact List.mem_cons_of_mem a (ih (hc ▸ h1))

theorem noDD_tail (a : Char) (rest : List Char)
    (h : noDoubleDash (a :: rest) = true) : noDoubleDash rest = true := by
  cases rest with
  | nil => rfl
  | cons b rs =>
    simp only [noDoubleDash, Bool.and_eq_true] at h
    exact h.2

theorem noDD_collapse (l : List Char) : noDoubleDash (collapseDashes l) = true := by
  induction l with
  | nil => rfl
  | cons a rest ih =>
    rcases hc : collapseDashes rest with _ | ⟨d, ds⟩
    · have e : collapseDashes (a :: rest) = [a] := by rw [collapseDashes_cons, hc]
      rw [e]
      rfl
    · have e : collapseDashes (a :: rest) =
          (if a = '-' ∧ d = '-' then d :: ds else a :: d :: ds) := by
        rw [collapseDashes_cons, hc]
      rw [e]
      rw [hc] at ih
      by_cases hd : a = '-' ∧ d = '-'
      · rw [if_pos hd]
        exact ih
      · rw [if_neg hd]
        simp only [noDoubleDash, Bool.and_eq_true]
        refine ⟨?_, ih⟩
        by_cases h1 : a = '-'
        · have h2 : ¬ d = '-' := fun h2 => hd ⟨h1, h2⟩
          simp [h1, h2]
        · simp [h1]

theorem noDD_dropWhile (p : Char → Bool) (l : List Char)
    (h : noDoubleDash l = true) : noDoubleDash (l.dropWhile p) = true := by
  induction l with
  | nil => rfl
  | cons a rest ih =>
    by_cases hp : p a
    · rw [List.dropWhile_cons_of_pos hp]
      exact ih (noDD_tail a rest h)
    · rw [List.dropWhile_cons_of_neg hp]
      exact h

theorem noDD_append_left (l1 l2 : List Char)
    (h : noDoubleDash (l1 ++ l2) = true) : noDoubleDash l1 = true := by
  induction l1 with
  | nil => rfl
  | cons a rest ih =>
    cases rest with
    | nil => rfl
    | cons b rs =>
      simp only [List.cons_append, noDoubleDash, Bool.and_eq_true] at h
      have h2 := ih (by simpa [noDoubleDash, Bool.and_eq_true] using h.2)
      simp only [noDoubleDash, Bool.and_eq_true]
      exact ⟨h.1, h2⟩

theorem trimTrailDash_spec (l : List Char) :
    l = trimTrailDash l ++ (l.reverse.takeWhile (fun c => c = '-')).reverse := by
  have h : trimTrailDash l ++ (l.reverse.takeWhile (fun c => c = '-')).reverse = l := by
    unfold trimTrailDash
    rw [← List.reverse_append, List.takeWhile_append_dropWhile, List.reverse_reverse]
  exact h.symm

theorem dropWhile_head_false (p : Char → Bool) (l : List Char) (c : Char)
    (h : (l.dropWhile p).head? = some c) : p c = false := by
  induction l with
  | nil => simp [List.dropWhile] at h
  | cons a rest ih =>
    by_cases hp : p a
    · rw [List.dropWhile_cons_of_pos hp] at h
      exact ih h
    · rw [List.dropWhile_cons_of_neg hp] at h
      simp at h
      subst h
      simpa using hp

theorem dropWhile_id_of_head (p : Char → Bool) (l : List Char)
    (h : ∀ c, l.head? = some c → p c = false) : l.dropWhile p = l := by
  cases l with
  | nil => rfl
  | cons a rest =>
    have := h a rfl
    rw [List.dropWhile_cons_of_neg (by simp [this])]

theorem collapse_id (l : List Char) (h : noDoubleDash l = true) :
    collapseDashes l = l := by
  induction l with
  | nil => rfl
  | cons a rest ih =>
    have hrest := ih (noDD_tail a rest h)
    cases rest with
    | nil => rfl
    | cons d ds =>
      have e : collapseDashes (a :: d :: ds) =
          (if a = '-' ∧ d = '-' then d :: ds else a :: d :: ds) := by
        rw [collapseDashes_cons, hrest]
      rw [e]
      by_cases hd : a = '-' ∧ d = '-'
      · exfalso
        simp only [noDoubleDash, Bool.and_eq_true] at h
        have := h.1
        rw [hd.1, hd.2] at this
        simp at this
      · rw [if_neg hd]

theorem map_id_of {α : Type} (f : α → α) (l : List α) (h : ∀ c ∈ l, f c = c) :
    l.map f = l := by
  induction l with
  | nil => rfl
  | cons a rest ih =>
    simp only [List.map_cons, h a (List.mem_cons_self a rest),
      ih (fun c hc => h c (List.mem_cons_of_mem a hc))]

/-- Every character of a slug is in the slug class. -/
theorem slugifyL_chars (l : List Char) (c : Char) (h : c ∈ slugifyL l) :
    isSlugChar c = true := by
  unfold slugifyL trimTrailDash trimLeadDash at h
  rw [List.mem_reverse] at h
  have h1 := (List.dropWhile_sublist _).mem h
  rw [List.mem_reverse] at h1
  have h2 := (List.dropWhile_sublist (p := fun c => decide (c = '-'))).mem h1
  have h3 := mem_collapseDashes _ _ h2
  rcases List.mem_map.mp h3 with ⟨c', _, rfl⟩
  exact replaceBad_slug c'

/-- A slug has no doubled dash. -/
theorem slugifyL_noDD (l : List Char) : noDoubleDash (slugifyL l) = true := by
  unfold slugifyL
  have h1 := noDD_collapse ((l.map toLowerCh).map replaceBad)
  have h2 := noDD_dropWhile (fun c => decide (c = '-')) _ h1
  have h3 := trimTrailDash_spec (trimLeadDash (collapseDashes ((l.map toLowerCh).map replaceBad)))
  exact noDD_append_left _ _ (by rw [← h3]; exact h2)

/-- A slug does not start with a dash. -/
theorem slugifyL_head (l : List Char) (c : Char)
    (h : (slugifyL l).head? = some c) : c ≠ '-' := by
  unfold slugifyL at h
  set m2 := trimLeadDash (collapseDashes ((l.map toLowerCh).map replaceBad)) with hm2
  have hspec := trimTrailDash_spec m2
  have hh : m2.head? = some c := by
    conv_lhs => rw [hspec]
    cases he : trimTrailDash m2 with
    | nil => rw [he] at h; simp at h
    | cons x xs =>
      rw [he] at h
      simp only [List.head?_cons, Option.some.injEq] at h
      simp [h]
  rw [hm2] at hh
  unfold trimLeadDash at hh
  have := dropWhile_head_false (fun c => decide (c = '-')) _ c hh
  simpa using this

/-- A slug does not end with a dash. -/
theorem slugifyL_last (l : List Char) (c : Char)
    (h : (slugifyL l).getLast? = some c) : c ≠ '-' := by
  unfold slugifyL trimTrailDash at h
  rw [List.getLast?_reverse] at h
  have := dropWhile_head_false (fun c => decide (c = '-')) _ c h
  simpa using this

/-- Applying the slug pipeline to a slug is the identity. -/
theorem slugifyL_idem (l : List Char) : slugifyL (slugifyL l) = slugifyL l := by
  set m := slugifyL l with hm
  have hchars : ∀ c ∈ m, isSlugChar c = true := fun c hc => slugifyL_chars l c (hm ▸ hc)
  have hnodd : noDoubleDash m = true := hm ▸ slugifyL_noDD l
  unfold slugifyL
  rw [map_id_of toLowerCh m (fun c hc => toLowerCh_fix c (hchars c hc))]
  rw [map_id_of replaceBad m (fun c hc => replaceBad_fix c (hchars c hc))]
  rw [collapse_id m hnodd]
  rw [show trimLeadDash m = m from dropWhile_id_of_head _ m (by
    intro c hc
    have := slugifyL_head l c (hm ▸ hc)
    simpa using this)]
  unfold trimTrailDash
  rw [dropWhile_id_of_head _ m.reverse (by
    intro c hc
    rw [List.head?_reverse] at hc
    have := slugifyL_last l c (hm ▸ hc)
    simpa using this)]
  exact List.reverse_reverse m

/-- Claim C4: `slugify` is idempotent, produces only characters from the
class `[a-z0-9-_]`, never two consecutive dashes, and neither a leading
nor a trailing dash. -/
theorem slugify_spec (s : String) :
    slugify (slugify s) = slugify s ∧
    (∀ c ∈ (slugify s).data, isSlugChar c = true) ∧
    noDoubleDash (slugify s).data = true ∧
    (∀ c, (slugify s).data.head? = some c → c ≠ '-') ∧
    (∀ c, (slugify s).data.getLast? = some c → c ≠ '-') := by
  refine ⟨?_, ?_, ?_, ?_, ?_⟩
  · show (⟨slugifyL (slugifyL s.data)⟩ : String) = ⟨slugifyL s.data⟩
    rw [slugifyL_idem]
  · exact fun c hc => slugifyL_chars s.data c hc
  · exact slugifyL_noDD s.data
  · exact fun c hc => slugifyL_head s.data c hc
  · exact fun c hc => slugifyL_last s.data c hc

/-- Witness for C4 at a concrete string. -/
theorem slugify_spec_witness : slugify (slugify "My App!!") = slugify "My App!!" :=
  (slugify_spec "My App!!").1

theorem map_const_dash (l : List Char) (h : ∀ c ∈ l, replaceBad c = '-') :
    l.map replaceBad = List.replicate l.length '-' := by
  induction l with
  | nil => rfl
  | cons a rest ih =>
    simp only [List.map_cons, h a (List.mem_cons_self a rest), List.length_cons,
      List.replicate_succ, ih (fun c hc => h c (List.mem_cons_of_mem a hc))]

theorem collapse_replicate (n : Nat) :
    collapseDashes (List.replicate n '-') = if n = 0 then [] else ['-'] := by
  induction n with
  | zero => rfl
  | succ k ih =>
    rw [List.replicate_succ]
    simp only [collapseDashes, ih]
    cases k with
    | zero => rfl
    | succ j => simp

/-- Claim C9: a string whose lowercase form has no character from the
class `[a-z0-9_]` slugifies to the empty string; consequently the
manifest rewriter then sets the `name` field of mcp.json to the empty
string. -/
theorem slugify_empty_of_nonalnum :
    (∀ s : String, (∀ c ∈ s.data.map toLowerCh, isAlnumUnd c = false) →
      slugify s = "") ∧
    (∀ base : String, (∀ c ∈ base.data.map toLowerCh, isAlnumUnd c = false) →
      ∀ (m : List (String × Json)) (nl : Bool) (rt : String),
        ∃ flds, mcpPatch (.jsonFile (.obj m) nl) (slugify base) rt =
            .ok (.jsonFile (.obj flds) false) ∧
          objGet flds "name" = some (.str "")) := by
  have key : ∀ s : String, (∀ c ∈ s.data.map toLowerCh, isAlnumUnd c = false) →
      slugify s = "" := by
    intro s h
    show (⟨slugifyL s.data⟩ : String) = ""
    unfold slugifyL
    rw [map_const_dash _ (fun c hc => replaceBad_dash c (h c hc))]
    rw [collapse_replicate]
    split
    · rfl
    · rfl
  refine ⟨key, ?_⟩
  intro base h m nl rt
  refine ⟨objSet (objSet m "name" (.str (slugify base))) "runtime" (.str rt), rfl, ?_⟩
  rw [objGet_objSet_ne _ _ _ _ (by decide)]
  rw [objGet_objSet_same]
  rw [key base h]

/-- Witness for C9 at a concrete base name made only of dashes and
punctuation. -/
theorem slugify_empty_of_nonalnum_witness : slugify "--!!--" = "" :=
  slugify_empty_of_nonalnum.1 "--!!--" (by decide)

/-! ## Lemmas: the package-manager detector (claim C2) -/

theorem probeDir_none (fs : List String → String → Bool) (d : List String)
    (h : ∀ lf ∈ lockfileNames, fs d lf = false) : probeDir fs d = none := by
  unfold probeDir
  rw [List.find?_eq_none.mpr]
  · rfl
  · intro p hp
    have := h p.1 (List.mem_map_of_mem Prod.fst hp)
    simp [this]

theorem probeDir_unique (fs : List String → String → Bool) (d : List String)
    (lf pm : String) (hmem : (lf, pm) ∈ lockfilePairs) (hlf : fs d lf = true)
    (hothers : ∀ lf2 ∈ lockfileNames, lf2 ≠ lf → fs d lf2 = false) :
    probeDir fs d = some pm := by
  simp only [lockfilePairs, List.mem_cons, List.not_mem_nil, or_false,
    Prod.mk.injEq] at hmem
  rcases hmem with ⟨rfl, rfl⟩ | ⟨rfl, rfl⟩ | ⟨rfl, rfl⟩ | ⟨rfl, rfl⟩
  · simp [probeDir, lockfilePairs, List.find?, hlf]
  · have e1 := hothers "pnpm-lock.yaml" (by decide) (by decide)
    simp [probeDir, lockfilePairs, List.find?, hlf, e1]
  · have e1 := hothers "pnpm-lock.yaml" (by decide) (by decide)
    have e2 := hothers "package-lock.json" (by decide) (by decide)
    simp [probeDir, lockfilePairs, List.find?, hlf, e1, e2]
  · have e1 := hothers "pnpm-lock.yaml" (by decide) (by decide)
    have e2 := hothers "package-lock.json" (by decide) (by decide)
    have e3 := hothers "yarn.lock" (by decide) (by decide)
    simp [probeDir, lockfilePairs, List.find?, hlf, e1, e2, e3]

theorem probeDir_mem (fs : List String → String → Bool) (d : List String) (pm : String)
    (h : probeDir fs d = some pm) : pm ∈ ["pnpm", "npm", "yarn", "bun"] := by
  unfold probeDir at h
  cases hf : lockfilePairs.find? (fun p => fs d p.1) with
  | none => rw [hf] at h; cases h
  | some p =>
    rw [hf] at h
    simp only [Option.map_some', Option.some.injEq] at h
    have hp := List.mem_of_find?_eq_some hf
    subst h
    simp only [lockfilePairs, List.mem_cons, List.not_mem_nil, or_false] at hp
    rcases hp with rfl | rfl | rfl | rfl <;> decide

theorem detectLoop_eq (fs : List String → String → Bool) (n : Nat) (cur : List String) :
    detectLoop fs cur n =
      (match (ancestorChain cur n).findSome? (probeDir fs) with
       | some pm => pm
       | none => "pnpm") := by
  induction n generalizing cur with
  | zero => rfl
  | succ k ih =>
    show (if dirnameOf cur = cur then "pnpm"
          else match probeDir fs (dirnameOf cur) with
               | some pm => pm
               | none => detectLoop fs (dirnameOf cur) k) = _
    by_cases hp : dirnameOf cur = cur
    · simp [ancestorChain, hp]
    · rw [if_neg hp]
      have hchain : ancestorChain cur (k + 1) =
          dirnameOf cur :: ancestorChain (dirnameOf cur) k := by
        show (if dirnameOf cur = cur then [] else
          dirnameOf cur :: ancestorChain (dirnameOf cur) k) = _
        rw [if_neg hp]
      rw [hchain, List.findSome?_cons]
      cases hq : probeDir fs (dirnameOf cur) with
      | some pm => rfl
      | none => exact ih (dirnameOf cur)

theorem detect_eq_specDetect (fs : List String → String → Bool) (cwd : List String) :
    detectPackageManager fs cwd = specDetect fs cwd := by
  unfold detectPackageManager specDetect probedDirs
  rw [List.findSome?_cons]
  cases hq : probeDir fs cwd with
  | some pm => rfl
  | none => exact detectLoop_eq fs 5 cwd

theorem findSome_probe_unique (fs : List String → String → Bool)
    (L : List (List String)) (lf pm : String)
    (hmem : (lf, pm) ∈ lockfilePairs)
    (hex : ∃ d ∈ L, fs d lf = true)
    (hothers : ∀ lf2 ∈ lockfileNames, lf2 ≠ lf → ∀ d ∈ L, fs d lf2 = false) :
    L.findSome? (probeDir fs) = some pm := by
  induction L with
  | nil =>
    rcases hex with ⟨d, hd, _⟩
    cases hd
  | cons d0 rest ih =>
    rw [List.findSome?_cons]
    by_cases h0 : fs d0 lf = true
    · rw [probeDir_unique fs d0 lf pm hmem h0
        (fun lf2 h2 h3 => hothers lf2 h2 h3 d0 (List.mem_cons_self d0 rest))]
    · have hnone : probeDir fs d0 = none := by
        apply probeDir_none
        intro lf2 h2
        by_cases hlf2 : lf2 = lf
        · subst hlf2
          simpa using h0
        · exact hothers lf2 h2 hlf2 d0 (List.mem_cons_self d0 rest)
      rw [hnone]
      apply ih
      · rcases hex with ⟨d, hd, hfd⟩
        rcases List.mem_cons.mp hd with rfl | hd2
        · exact absurd hfd h0
        · exact ⟨d, hd2, hfd⟩
      · exact fun lf2 h2 h3 d hd => hothers lf2 h2 h3 d (List.mem_cons_of_mem d0 hd)

/-- Claim C2: the detector probes the four lockfiles in fixed priority
order in the starting directory and then in up to 5 ancestors, returning
the identifier of the first lockfile found (this is `specDetect`, the
spec-worded description); with exactly one lockfile name present across
the probed directories it returns that name's identifier; with none it
returns `"pnpm"`; and it always returns one of the four identifiers
(it never fails). -/
theorem detectPackageManager_spec (fs : List String → String → Bool) (cwd : List String) :
    detectPackageManager fs cwd = specDetect fs cwd ∧
    detectPackageManager fs cwd ∈ ["pnpm", "npm", "yarn", "bun"] ∧
    ((∀ d ∈ probedDirs cwd, ∀ lf ∈ lockfileNames, fs d lf = false) →
      detectPackageManager fs cwd = "pnpm") ∧
    (∀ lf pm, (lf, pm) ∈ lockfilePairs →
      (∃ d ∈ probedDirs cwd, fs d lf = true) →
      (∀ lf2 ∈ lockfileNames, lf2 ≠ lf → ∀ d ∈ probedDirs cwd, fs d lf2 = false) →
      detectPackageManager fs cwd = pm) := by
  have heq := detect_eq_specDetect fs cwd
  refine ⟨heq, ?_, ?_, ?_⟩
  · rw [heq]
    unfold specDetect
    cases hq : (probedDirs cwd).findSome? (probeDir fs) with
    | none => decide
    | some pm =>
      rcases List.exists_of_findSome?_eq_some hq with ⟨d, _, hd⟩
      exact probeDir_mem fs d pm hd
  · intro h
    rw [heq]
    unfold specDetect
    rw [List.findSome?_eq_none_iff.mpr (fun d hd => probeDir_none fs d (h d hd))]
  · intro lf pm hmem hex hothers
    rw [heq]
    unfold specDetect
    rw [findSome_probe_unique fs (probedDirs cwd) lf pm hmem hex hothers]

/-- Witness for C2: a single `yarn.lock` two levels up is found and
mapped to `yarn`. -/
theorem detectPackageManager_spec_witness :
    detectPackageManager (fun d lf => d = ["a"] && lf = "yarn.lock") ["a", "b", "c"] = "yarn" := by
  have h := (detectPackageManager_spec (fun d lf => d = ["a"] && lf = "yarn.lock")
    ["a", "b", "c"]).2.2.2 "yarn.lock" "yarn" (by decide)
    ⟨["a"], by decide, by decide⟩ (by decide)
  exact h

/-! ## Claim C10: the install decision -/

/-- Claim C10: the `shouldInstall` resolution is true whenever a truthy
`install` key is present (even alongside `no-install`), false exactly
when `no-install` is truthy and `install` is not, and true when neither
is present. -/
theorem shouldInstall_spec (a : ParsedArgs) :
    (truthyKey a "install" = true → shouldInstallOf a = true) ∧
    (shouldInstallOf a = false ↔
      (truthyKey a "no-install" = true ∧ truthyKey a "install" = false)) ∧
    ((truthyKey a "install" = false ∧ truthyKey a "no-install" = false) →
      shouldInstallOf a = true) := by
  unfold shouldInstallOf
  by_cases h1 : truthyKey a "install" = true
  · simp [h1]
  · have h1' : truthyKey a "install" = false := by simpa using h1
    by_cases h2 : truthyKey a "no-install" = true
    · simp [h1', h2]
    · have h2' : truthyKey a "no-install" = false := by simpa using h2
      simp [h1', h2']

/-- Witness for C10: `--install --no-install` still installs. -/
theorem shouldInstall_spec_witness :
    shouldInstallOf (parseArgs ["--install", "--no-install"]) = true :=
  (shouldInstall_spec (parseArgs ["--install", "--no-install"])).1 (by decide)

/-! ## Claim C6: the help branch -/

/-- Claim C6 (amended): when the parsed arguments hold a truthy `help`
or `h` key — produced by the flag tokens `--help` or `--h` — the run
prints the usage text and returns successfully with no prompt, no
filesystem mutation and no child process.  A `-h` token does not start
with `--`, is parsed as a positional argument, and does not reach this
branch (see the counterexample). -/
theorem help_branch (argv : List String) (cwd : List String) (pr : Prompts) (w : World)
    (h : (truthyKey (parseArgs argv) "help" || truthyKey (parseArgs argv) "h") = true) :
    (runMain argv cwd pr w).result = .ok () ∧
    (runMain argv cwd pr w).helpShown = true ∧
    (runMain argv cwd pr w).world = w ∧
    (runMain argv cwd pr w).spawned = [] := by
  unfold runMain
  simp [h]

/-- Witness for C6 at `--help`. -/
theorem help_branch_witness :
    (runMain ["--help"] [] pr0 w0).helpShown = true ∧
    (runMain ["--help"] [] pr0 w0).result = .ok () :=
  ⟨(help_branch ["--help"] [] pr0 w0 (by decide)).2.1,
   (help_branch ["--help"] [] pr0 w0 (by decide)).1⟩

/-- Counterexample for C6 as stated: with argv `["-h"]` the usage text
is not printed; `-h` becomes a positional directory argument and the run
proceeds to the interactive flow (here aborting at the directory prompt
with exit code 1 rather than exiting successfully). -/
theorem dash_h_counterexample :
    (runMain ["-h"] [] pr0 w0).helpShown = false ∧
    (runMain ["-h"] [] pr0 w0).result = .error .cancelled := by
  constructor
  · rfl
  · rfl

/-! ## Lemmas: directory copying (claim C5) -/

theorem setEntry_append (es : List (String × FSTree)) (n : String) (t : FSTree)
    (h : lookupEntry es n = none) : setEntry es n t = es ++ [(n, t)] := by
  induction es with
  | nil => rfl
  | cons p rest ih =>
    obtain ⟨m, u⟩ := p
    simp only [lookupEntry] at h
    by_cases hm : m = n
    · rw [if_pos hm] at h
      cases h
    · rw [if_neg hm] at h
      simp [setEntry, hm, ih h]

theorem lookup_append_none (es : List (String × FSTree)) (n m : String) (t : FSTree)
    (h1 : lookupEntry es m = none) (h2 : m ≠ n) :
    lookupEntry (es ++ [(n, t)]) m = none := by
  induction es with
  | nil => simp [lookupEntry, Ne.symm h2]
  | cons p rest ih =>
    obtain ⟨k, u⟩ := p
    simp only [lookupEntry] at h1
    by_cases hk : k = m
    · rw [if_pos hk] at h1
      cases h1
    · rw [if_neg hk] at h1
      simp only [List.cons_append, lookupEntry, if_neg hk]
      exact ih h1

theorem contains_false_not_mem (ns : List String) (n : String)
    (h : ns.contains n = false) : n ∉ ns := by
  intro hm
  have hc : ns.contains n = true :=
    List.contains_iff_exists_mem_beq.mpr ⟨n, hm, by simp⟩
  rw [h] at hc
  cases hc

mutual

theorem copyEntryInto_fresh (t : FSTree) (hwf : wfTree t = true) :
    copyEntryInto t none = Except.ok t := by
  match t with
  | .file c => rfl
  | .dir ses =>
    have hx : namesNodup (namesOf ses) = true ∧ wfEntries ses = true := by
      simpa [wfTree, Bool.and_eq_true] using hwf
    show (copyEntries ses []).map FSTree.dir = Except.ok (.dir ses)
    rw [show copyEntries ses [] = Except.ok ses from by
      simpa using copyEntries_fresh ses [] hx.2 hx.1 (fun n _ => rfl)]
    rfl

theorem copyEntries_fresh (es acc : List (String × FSTree))
    (hwf : wfEntries es = true) (hnd : namesNodup (namesOf es) = true)
    (hfresh : ∀ n ∈ namesOf es, lookupEntry acc n = none) :
    copyEntries es acc = Except.ok (acc ++ es) := by
  match es with
  | [] => simp [copyEntries]
  | (n, t) :: rest =>
    have hwt : wfTree t = true ∧ wfEntries rest = true := by
      simpa [wfEntries, Bool.and_eq_true] using hwf
    have hnd' : namesNodup (namesOf rest) = true := by
      have := hnd
      simp only [namesOf, List.map_cons, namesNodup, Bool.and_eq_true] at this
      exact this.2
    have hnotin : n ∉ namesOf rest := by
      have hc := hnd
      simp only [namesOf, List.map_cons, namesNodup, Bool.and_eq_true,
        Bool.not_eq_true'] at hc
      exact contains_false_not_mem _ _ hc.1
    have hl : lookupEntry acc n = none := hfresh n (by simp [namesOf])
    show (match copyEntryInto t (lookupEntry acc n) with
          | .error e => Except.error e
          | .ok sub => copyEntries rest (setEntry acc n sub)) =
        Except.ok (acc ++ (n, t) :: rest)
    rw [hl, copyEntryInto_fresh t hwt.1]
    show copyEntries rest (setEntry acc n t) = Except.ok (acc ++ (n, t) :: rest)
    rw [setEntry_append acc n t hl]
    rw [copyEntries_fresh rest (acc ++ [(n, t)]) hwt.2 hnd' (by
      intro m hm
      exact lookup_append_none acc n m t (hfresh m (List.mem_cons_of_mem _ hm))
        (fun he => hnotin (he ▸ hm)))]
    simp

end

theorem copyDir_into_empty (es : List (String × FSTree)) (dest : Option FSTree)
    (hwf : wfTree (.dir es) = true)
    (hdest : dest = none ∨ dest = some (.dir [])) :
    copyDir (.dir es) dest = Except.ok es := by
  have hx : namesNodup (namesOf es) = true ∧ wfEntries es = true := by
    simpa [wfTree, Bool.and_eq_true] using hwf
  have h0 : copyEntries es [] = Except.ok es := by
    simpa using copyEntries_fresh es [] hx.2 hx.1 (fun n _ => rfl)
  rcases hdest with rfl | rfl
  · exact h0
  · exact h0

/-- Claim C5 (amended): for a well-formed source directory and an empty
or nonexistent destination, `copyDir` reproduces exactly the source's
entries, so the destination's relative file-path listing equals the
source's.  (As stated over every destination the claim fails: a
non-empty destination's extra files survive the copy — see the
counterexample.) -/
theorem copyDir_fresh_spec (es : List (String × FSTree)) (dest : Option FSTree)
    (hwf : wfTree (.dir es) = true)
    (hdest : dest = none ∨ dest = some (.dir [])) :
    copyDir (.dir es) dest = Except.ok es ∧
    ∃ out, copyDir (.dir es) dest = Except.ok out ∧
      listFiles (.dir out) = listFiles (.dir es) := by
  have hcopy := copyDir_into_empty es dest hwf hdest
  exact ⟨hcopy, es, hcopy, rfl⟩

/-- Witness for C5 on a two-level template. -/
theorem copyDir_fresh_spec_witness :
    copyDir (.dir [("a.txt", .file (.rawFile "1")), ("sub", .dir [("b.txt", .file (.rawFile "2"))])])
        none =
      Except.ok [("a.txt", .file (.rawFile "1")), ("sub", .dir [("b.txt", .file (.rawFile "2"))])] :=
  (copyDir_fresh_spec _ none (by decide) (Or.inl rfl)).1

/-- Counterexample for C5 as stated (for every destination): copying
into a destination that already holds `b` leaves `b` in place, so the
destination's path set differs from the source's. -/
theorem copyDir_merge_counterexample :
    copyDir (.dir [("a", .file (.rawFile "x"))]) (some (.dir [("b", .file (.rawFile "y"))])) =
      Except.ok [("b", .file (.rawFile "y")), ("a", .file (.rawFile "x"))] ∧
    ["b"] ∈ listFiles (.dir [("b", .file (.rawFile "y")), ("a", .file (.rawFile "x"))]) ∧
    ["b"] ∉ listFiles (.dir [("a", .file (.rawFile "x"))]) := by
  refine ⟨rfl, by decide, by decide⟩

/-! ## Lemmas: the package-manifest patch (claim C8) -/

/-- Claim C8 (amended): the package-manifest step is a no-op when
`package.json` is absent; when present with a truthy `@dwizi/dzx`
dependency entry, exactly that entry is overwritten with `^` followed by
the resolved version, every other field of the manifest and of the
dependency map is unchanged, and the file is rewritten as 2-space
indented JSON plus a trailing newline; when the entry is absent the file
is not rewritten; the resolved version falls back to the wildcard `*`
when resolution fails.  (As stated the claim fails for a present but
falsy entry, which the code leaves alone — see the counterexample.) -/
theorem pkgPatch_spec :
    (∀ (es : List (String × FSTree)) (ver : String),
      lookupEntry es "package.json" = none → pkgStep es ver = .ok es) ∧
    (∀ (fields deps : List (String × Json)) (nl : Bool) (v : Json) (ver : String),
      objGet fields "dependencies" = some (.obj deps) →
      objGet deps "@dwizi/dzx" = some v → jsTruthy v = true →
      ∃ deps2 fields2,
        pkgPatch (.jsonFile (.obj fields) nl) ver =
          .ok (some (.jsonFile (.obj fields2) true)) ∧
        objGet fields2 "dependencies" = some (.obj deps2) ∧
        objGet deps2 "@dwizi/dzx" = some (.str ("^" ++ ver)) ∧
        (∀ k, k ≠ "@dwizi/dzx" → objGet deps2 k = objGet deps k) ∧
        (∀ k, k ≠ "dependencies" → objGet fields2 k = objGet fields k)) ∧
    (∀ (fields deps : List (String × Json)) (nl : Bool) (ver : String),
      objGet fields "dependencies" = some (.obj deps) →
      objGet deps "@dwizi/dzx" = none →
      pkgPatch (.jsonFile (.obj fields) nl) ver = .ok none) ∧
    (getDzxVersionOf none = "*" ∧
      ∀ s, trimStr s ≠ "" → getDzxVersionOf (some s) = trimStr s) := by
  refine ⟨?_, ?_, ?_, rfl, ?_⟩
  · intro es ver h
    simp only [pkgStep, h]
  · intro fields deps nl v ver h1 h2 h3
    refine ⟨objSet deps "@dwizi/dzx" (.str ("^" ++ ver)),
      objSet fields "dependencies" (.obj (objSet deps "@dwizi/dzx" (.str ("^" ++ ver)))),
      ?_, objGet_objSet_same _ _ _, objGet_objSet_same _ _ _,
      fun k hk => objGet_objSet_ne _ _ _ _ hk,
      fun k hk => objGet_objSet_ne _ _ _ _ hk⟩
    simp only [pkgPatch, h1, h2, h3, if_true]
  · intro fields deps nl ver h1 h2
    simp only [pkgPatch, h1, h2]
  · intro s h
    show (if trimStr s = "" then "*" else trimStr s) = trimStr s
    rw [if_neg h]

/-- Witness for C8: a manifest with a `^1.0.0` constraint is repinned to
the resolved version `1.2.3`. -/
theorem pkgPatch_spec_witness :
    ∃ deps2 fields2,
      pkgPatch (.jsonFile (.obj pkgWFields) true) "1.2.3" =
        .ok (some (.jsonFile (.obj fields2) true)) ∧
      objGet fields2 "dependencies" = some (.obj deps2) ∧
      objGet deps2 "@dwizi/dzx" = some (.str ("^" ++ "1.2.3")) ∧
      (∀ k, k ≠ "@dwizi/dzx" → objGet deps2 k = objGet pkgWDeps k) ∧
      (∀ k, k ≠ "dependencies" → objGet fields2 k = objGet pkgWFields k) :=
  pkgPatch_spec.2.1 pkgWFields pkgWDeps true (.str "^1.0.0") "1.2.3" rfl rfl (by decide)

/-- Counterexample for C8 as stated: `package.json` is present and its
`@dwizi/dzx` dependency entry exists (with the falsy value `""`), yet
the step does not rewrite the file. -/
theorem pkgPatch_falsy_counterexample :
    lookupEntry c8Es "package.json" = some (.file c8Pkg) ∧
    objGet [("@dwizi/dzx", Json.str "")] "@dwizi/dzx" = some (Json.str "") ∧
    pkgStep c8Es "1.2.3" = .ok c8Es := by
  refine ⟨rfl, rfl, rfl⟩

/-! ## Lemmas: listings are nonempty paths; the sort keeps members -/

theorem mem_insortKey {α : Type} (p q : String × α) (l : List (String × α))
    (h : q ∈ insortKey p l) : q = p ∨ q ∈ l := by
  induction l with
  | nil => simpa [insortKey] using h
  | cons r rest ih =>
    simp only [insortKey] at h
    split at h
    · rcases List.mem_cons.mp h with h1 | h1
      · exact Or.inl h1
      · exact Or.inr h1
    · rcases List.mem_cons.mp h with h1 | h1
      · exact Or.inr (h1 ▸ List.mem_cons_self r rest)
      · rcases ih h1 with h2 | h2
        · exact Or.inl h2
        · exact Or.inr (List.mem_cons_of_mem r h2)

theorem mem_sortByKey {α : Type} (q : String × α) (l : List (String × α))
    (h : q ∈ sortByKey l) : q ∈ l := by
  induction l with
  | nil => simpa [sortByKey] using h
  | cons p rest ih =>
    simp only [sortByKey] at h
    rcases mem_insortKey p q (sortByKey rest) h with h1 | h1
    · exact h1 ▸ List.mem_cons_self p rest
    · exact List.mem_cons_of_mem p (ih h1)

theorem listEntry_ne_nil (n : String) (t : FSTree) (p : List String)
    (h : p ∈ listEntry n t) : p ≠ [] := by
  cases t with
  | file c =>
    simp only [listEntry, List.mem_singleton] at h
    simp [h]
  | dir ses =>
    simp only [listEntry] at h
    rcases List.mem_map.mp h with ⟨q, _, rfl⟩
    simp

theorem listBlocks_shape (es : List (String × FSTree))
    (nb : String × List (List String)) (h : nb ∈ listBlocks es) :
    ∃ t, nb.2 = listEntry nb.1 t := by
  induction es with
  | nil => simpa [listBlocks] using h
  | cons p rest ih =>
    obtain ⟨n, t⟩ := p
    simp only [listBlocks] at h
    rcases List.mem_cons.mp h with h1 | h1
    · exact ⟨t, by rw [h1]⟩
    · exact ih h1

theorem listFiles_ne_nil (t : FSTree) (p : List String) (h : p ∈ listFiles t) :
    p ≠ [] := by
  cases t with
  | file c => simp [listFiles] at h
  | dir es =>
    simp only [listFiles] at h
    rcases List.mem_flatten.mp h with ⟨b, hb, hpb⟩
    rcases List.mem_map.mp hb with ⟨⟨n, bl⟩, hmem, rfl⟩
    rcases listBlocks_shape es (n, bl) (mem_sortByKey _ _ hmem) with ⟨t2, ht2⟩
    exact listEntry_ne_nil n t2 p (by rw [← ht2]; exact hpb)

/-! ## Lemmas: the pre-copy phase (claims C3 and C7) -/

theorem isEmptyDirM_true_cases (b : Option FSTree) (h : isEmptyDirM b = .ok true) :
    b = none ∨ b = some (.dir []) := by
  match b with
  | none => exact Or.inl rfl
  | some (.file _) => cases h
  | some (.dir []) => exact Or.inr rfl
  | some (.dir (e :: es)) => simp [isEmptyDirM] at h

theorem existsAt_empty (b : Option FSTree) (p : List String)
    (hb : b = none ∨ b = some (.dir [])) (hp : p ≠ []) :
    existsAt b p = false := by
  rcases hb with rfl | rfl
  · rfl
  · cases p with
    | nil => exact absurd rfl hp
    | cons n rest => simp [existsAt, getPath, lookupEntry]

theorem collisionCheck_empty_target (a : ParsedArgs) (w : World)
    (es : List (String × FSTree))
    (htgt : w.target = none ∨ w.target = some (.dir [])) :
    collisionCheck a w (.dir es) = .ok () := by
  unfold collisionCheck
  cases hf : truthyKey a "force" with
  | true => simp
  | false =>
    simp only [Bool.false_eq_true, if_false]
    have hlist : listFilesAt (some (.dir es)) = .ok (listFiles (.dir es)) := rfl
    rw [hlist]
    have hfilter : (listFiles (.dir es)).filter (fun p => existsAt w.target p) = [] := by
      rw [List.filter_eq_nil_iff]
      intro p hp
      simp [existsAt_empty w.target p htgt (listFiles_ne_nil _ p hp)]
    simp [hfilter]

theorem collisionCheck_no_refuse (a : ParsedArgs) (w : World) (ttree : FSTree)
    (cs : List (List String))
    (htgt : w.target = none ∨ w.target = some (.dir [])) :
    collisionCheck a w ttree ≠ .error (.refuseOverwrite cs) := by
  unfold collisionCheck
  cases hf : truthyKey a "force" with
  | true => simp
  | false =>
    simp only [Bool.false_eq_true, if_false]
    cases ttree with
    | file c => simp [listFilesAt]
    | dir es =>
      have hlist : listFilesAt (some (.dir es)) = .ok (listFiles (.dir es)) := rfl
      rw [hlist]
      have hfilter : (listFiles (.dir es)).filter (fun p => existsAt w.target p) = [] := by
        rw [List.filter_eq_nil_iff]
        intro p hp
        simp [existsAt_empty w.target p htgt (listFiles_ne_nil _ p hp)]
      simp [hfilter]

theorem phase1_dirNotEmpty (a : ParsedArgs) (cwd : List String) (pr : Prompts)
    (w : World) (targetDir : List String) (tv rv : ArgVal) (template runtime : String)
    (h1 : resolveTargetDir a (truthyKey a "yes") pr cwd = .ok targetDir)
    (h2 : resolveChoice (getKey? a.keys "template") (truthyKey a "yes") "basic"
      pr.templateResponse = .ok tv)
    (h3 : resolveChoice (getKey? a.keys "runtime") (truthyKey a "yes") "node"
      pr.runtimeResponse = .ok rv)
    (h4 : checkTemplate tv = .ok template)
    (h5 : checkRuntime rv = .ok runtime)
    (h6 : isEmptyDirM w.target = .ok false)
    (hforce : truthyKey a "force" = false) :
    phase1 a cwd pr w = .error (.dirNotEmpty targetDir) := by
  simp only [phase1, h1, h2, h3, h4, h5, h6, hforce]
  simp

theorem resolveDirVal_shape (a : ParsedArgs) :
    resolveDirVal a = .error .typeError ∨ ∃ d, resolveDirVal a = .ok d := by
  unfold resolveDirVal
  cases getKey? a.keys "dir" with
  | some v =>
    cases v with
    | str s => exact Or.inr ⟨_, rfl⟩
    | flag => exact Or.inl rfl
  | none =>
    cases a.positional.head? with
    | some s => exact Or.inr ⟨_, rfl⟩
    | none => exact Or.inr ⟨_, rfl⟩

theorem resolveTargetDir_not_refuse (a : ParsedArgs) (isY : Bool) (pr : Prompts)
    (cwd : List String) (cs : List (List String)) :
    resolveTargetDir a isY pr cwd ≠ .error (.refuseOverwrite cs) := by
  unfold resolveTargetDir
  rcases resolveDirVal_shape a with h | ⟨d, h⟩
  · rw [h]
    simp
  · rw [h]
    cases isY with
    | true => simp
    | false =>
      cases pr.dirResponse with
      | none => simp
      | some r => simp

theorem resolveChoice_not_refuse (explicit : Option ArgVal) (isY : Bool)
    (dflt : String) (resp : Option String) (cs : List (List String)) :
    resolveChoice explicit isY dflt resp ≠ .error (.refuseOverwrite cs) := by
  unfold resolveChoice
  cases explicit with
  | some v =>
    cases htv : truthy v with
    | true => simp [htv]
    | false =>
      cases isY with
      | true => simp [htv]
      | false =>
        cases resp with
        | none => simp [htv]
        | some r => simp [htv]
  | none =>
    cases isY with
    | true => simp
    | false =>
      cases resp with
      | none => simp
      | some r => simp

theorem contains_true_mem (ns : List String) (n : String)
    (h : ns.contains n = true) : n ∈ ns := by
  rcases List.contains_iff_exists_mem_beq.mp h with ⟨b, hb, he⟩
  exact (eq_of_beq he) ▸ hb

theorem checkTemplate_not_refuse (v : ArgVal) (cs : List (List String)) :
    checkTemplate v ≠ .error (.refuseOverwrite cs) := by
  intro h
  unfold checkTemplate at h
  split at h
  · split at h
    · cases h
    · simp at h
  · simp at h

theorem checkRuntime_not_refuse (v : ArgVal) (cs : List (List String)) :
    checkRuntime v ≠ .error (.refuseOverwrite cs) := by
  intro h
  unfold checkRuntime at h
  split at h
  · split at h
    · cases h
    · simp at h
  · simp at h

theorem confirmCheck_not_refuse (a : ParsedArgs) (pr : Prompts)
    (cs : List (List String)) :
    confirmCheck a pr ≠ .error (.refuseOverwrite cs) := by
  unfold confirmCheck
  cases hc : (truthyKey a "force" && !(truthyKey a "yes")) with
  | false => simp [hc]
  | true =>
    simp only [hc, if_true]
    cases pr.confirmResponse with
    | none => simp
    | some b => cases b <;> simp

theorem mcpStep_not_refuse (es : List (String × FSTree)) (nm rt : String)
    (cs : List (List String)) :
    mcpStep es nm rt ≠ .error (.refuseOverwrite cs) := by
  intro h
  unfold mcpStep at h
  split at h
  · cases h
  · simp at h
  · split at h
    · simp at h
    · cases h

theorem pkgStep_not_refuse (es : List (String × FSTree)) (ver : String)
    (cs : List (List String)) :
    pkgStep es ver ≠ .error (.refuseOverwrite cs) := by
  intro h
  unfold pkgStep at h
  split at h
  · cases h
  · simp at h
  · split at h
    · simp at h
    · cases h
    · cases h

theorem phase1_no_refuse (a : ParsedArgs) (cwd : List String) (pr : Prompts)
    (w : World) (cs : List (List String)) :
    phase1 a cwd pr w ≠ .error (.refuseOverwrite cs) := by
  intro hcon
  cases h1 : resolveTargetDir a (truthyKey a "yes") pr cwd with
  | error e =>
    simp only [phase1, h1, Except.error.injEq] at hcon
    exact resolveTargetDir_not_refuse a (truthyKey a "yes") pr cwd cs
      (by rw [h1, hcon])
  | ok targetDir =>
  cases h2 : resolveChoice (getKey? a.keys "template") (truthyKey a "yes") "basic"
      pr.templateResponse with
  | error e =>
    simp only [phase1, h1, h2, Except.error.injEq] at hcon
    exact resolveChoice_not_refuse _ _ _ _ cs (by rw [h2, hcon])
  | ok tv =>
  cases h3 : resolveChoice (getKey? a.keys "runtime") (truthyKey a "yes") "node"
      pr.runtimeResponse with
  | error e =>
    simp only [phase1, h1, h2, h3, Except.error.injEq] at hcon
    exact resolveChoice_not_refuse _ _ _ _ cs (by rw [h3, hcon])
  | ok rv =>
  cases h4 : checkTemplate tv with
  | error e =>
    simp only [phase1, h1, h2, h3, h4, Except.error.injEq] at hcon
    exact checkTemplate_not_refuse tv cs (by rw [h4, hcon])
  | ok template =>
  cases h5 : checkRuntime rv with
  | error e =>
    simp only [phase1, h1, h2, h3, h4, h5, Except.error.injEq] at hcon
    exact checkRuntime_not_refuse rv cs (by rw [h5, hcon])
  | ok runtime =>
  cases h6 : isEmptyDirM w.target with
  | error e =>
    simp only [phase1, h1, h2, h3, h4, h5, h6] at hcon
    simp at hcon
  | ok empty =>
  simp only [phase1, h1, h2, h3, h4, h5, h6] at hcon
  by_cases hif : (!(truthyKey a "force") && !empty) = true
  · rw [if_pos hif] at hcon
    simp at hcon
  · rw [if_neg hif] at hcon
    cases h7 : templateLookup w template with
    | none =>
      simp only [h7] at hcon
      simp at hcon
    | some ttree =>
    simp only [h7] at hcon
    cases h8 : confirmCheck a pr with
    | error e =>
      simp only [h8, Except.error.injEq] at hcon
      exact confirmCheck_not_refuse a pr cs (by rw [h8, hcon])
    | ok u =>
    cases u
    simp only [h8] at hcon
    cases h9 : collisionCheck a w ttree with
    | ok u2 =>
      cases u2
      simp only [h9] at hcon
      simp at hcon
    | error e =>
      simp only [h9, Except.error.injEq] at hcon
      subst hcon
      cases hforce : truthyKey a "force" with
      | true =>
        unfold collisionCheck at h9
        rw [hforce] at h9
        simp at h9
      | false =>
        have hempty : empty = true := by
          cases hem : empty with
          | true => rfl
          | false =>
            rw [hforce, hem] at hif
            simp at hif
        subst hempty
        have htgt := isEmptyDirM_true_cases w.target h6
        exact collisionCheck_no_refuse a w ttree cs htgt h9

theorem runMain_dirNotEmpty_aux (argv cwd : List String) (pr : Prompts) (w : World)
    (hhelp : (truthyKey (parseArgs argv) "help" || truthyKey (parseArgs argv) "h") = false)
    (hforce : truthyKey (parseArgs argv) "force" = false)
    (hdir : targetDirResolves argv pr cwd = true)
    (htpl : templateResolvesValid argv pr = true)
    (hrt : runtimeResolvesValid argv pr = true)
    (hne : ∃ es, w.target = some (FSTree.dir es) ∧ es ≠ []) :
    ∃ d, runMain argv cwd pr w =
      { result := .error (.dirNotEmpty d), world := w, helpShown := false,
        spawned := [] } := by
  obtain ⟨es, hes, hne2⟩ := hne
  unfold targetDirResolves at hdir
  cases h1 : resolveTargetDir (parseArgs argv) (truthyKey (parseArgs argv) "yes") pr cwd with
  | error e =>
    simp only [h1] at hdir
    exact Bool.noConfusion hdir
  | ok targetDir =>
  unfold templateResolvesValid at htpl
  cases h2 : resolveChoice (getKey? (parseArgs argv).keys "template")
      (truthyKey (parseArgs argv) "yes") "basic" pr.templateResponse with
  | error e =>
    simp only [h2] at htpl
    exact Bool.noConfusion htpl
  | ok tv =>
  cases tv with
  | flag =>
    simp only [h2] at htpl
    exact Bool.noConfusion htpl
  | str s =>
  simp only [h2] at htpl
  unfold runtimeResolvesValid at hrt
  cases h3 : resolveChoice (getKey? (parseArgs argv).keys "runtime")
      (truthyKey (parseArgs argv) "yes") "node" pr.runtimeResponse with
  | error e =>
    simp only [h3] at hrt
    exact Bool.noConfusion hrt
  | ok rv =>
  cases rv with
  | flag =>
    simp only [h3] at hrt
    exact Bool.noConfusion hrt
  | str s2 =>
  simp only [h3] at hrt
  have h4 : checkTemplate (.str s) = .ok s := by
    simp [checkTemplate, contains_true_mem _ _ htpl]
  have h5 : checkRuntime (.str s2) = .ok s2 := by
    simp [checkRuntime, contains_true_mem _ _ hrt]
  have h6 : isEmptyDirM w.target = .ok false := by
    rw [hes]
    cases es with
    | nil => exact absurd rfl hne2
    | cons e es2 => rfl
  have hp := phase1_dirNotEmpty (parseArgs argv) cwd pr w targetDir (.str s) (.str s2)
    s s2 h1 h2 h3 h4 h5 h6 hforce
  exact ⟨targetDir, by simp [runMain, hhelp, hp]⟩

/-- Claim C3: in a run whose option resolution completes (no help flag,
no cancellation, valid template and runtime), with the force flag absent
and the resolved target an existing non-empty directory, the run fails
with `DirectoryNotEmpty` and writes nothing: the world, and in
particular the destination's file tree, is unchanged. -/
theorem run_dirNotEmpty (argv cwd : List String) (pr : Prompts) (w : World)
    (hhelp : (truthyKey (parseArgs argv) "help" || truthyKey (parseArgs argv) "h") = false)
    (hforce : truthyKey (parseArgs argv) "force" = false)
    (hdir : targetDirResolves argv pr cwd = true)
    (htpl : templateResolvesValid argv pr = true)
    (hrt : runtimeResolvesValid argv pr = true)
    (hne : ∃ es, w.target = some (FSTree.dir es) ∧ es ≠ []) :
    ∃ d, (runMain argv cwd pr w).result = .error (.dirNotEmpty d) ∧
      (runMain argv cwd pr w).world = w ∧
      (runMain argv cwd pr w).world.target = w.target ∧
      (runMain argv cwd pr w).spawned = [] := by
  obtain ⟨d, hd⟩ := runMain_dirNotEmpty_aux argv cwd pr w hhelp hforce hdir htpl hrt hne
  exact ⟨d, by rw [hd], by rw [hd], by rw [hd], by rw [hd]⟩

/-- Claim C7 (amended): when a run without the force flag reaches a
non-empty destination, the failure is the `DirectoryNotEmpty` error of
the emptiness check, whose message names the directory but lists no
conflicting entries and carries no truncation mark; the collision
listing that previews up to 8 conflicting entries (with a truncation
indicator beyond 8) is computed only after the emptiness check has
passed, at which point the destination is empty or nonexistent and the
collision set is empty — so no run ever raises that entry-listing
failure. -/
theorem dirNotEmpty_message_spec (argv cwd : List String) (pr : Prompts) (w : World)
    (hhelp : (truthyKey (parseArgs argv) "help" || truthyKey (parseArgs argv) "h") = false)
    (hforce : truthyKey (parseArgs argv) "force" = false)
    (hdir : targetDirResolves argv pr cwd = true)
    (htpl : templateResolvesValid argv pr = true)
    (hrt : runtimeResolvesValid argv pr = true)
    (hne : ∃ es, w.target = some (FSTree.dir es) ∧ es ≠ []) :
    (∃ d, (runMain argv cwd pr w).result = .error (.dirNotEmpty d) ∧
      listedEntries (.dirNotEmpty d) = [] ∧
      hasTruncationMark (.dirNotEmpty d) = false) ∧
    (∀ (argv2 cwd2 : List String) (pr2 : Prompts) (w2 : World) (cs : List (List String)),
      (runMain argv2 cwd2 pr2 w2).result ≠ .error (.refuseOverwrite cs)) := by
  constructor
  · obtain ⟨d, hd⟩ := runMain_dirNotEmpty_aux argv cwd pr w hhelp hforce hdir htpl hrt hne
    exact ⟨d, by rw [hd], rfl, rfl⟩
  · intro argv2 cwd2 pr2 w2 cs
    intro hcon
    cases hh : (truthyKey (parseArgs argv2) "help" || truthyKey (parseArgs argv2) "h") with
    | true =>
      simp [runMain, hh] at hcon
    | false =>
      simp only [runMain] at hcon
      rw [hh] at hcon
      simp only [Bool.false_eq_true, if_false] at hcon
      cases hp : phase1 (parseArgs argv2) cwd2 pr2 w2 with
      | error e =>
        simp only [hp] at hcon
        simp only [Except.error.injEq] at hcon
        exact phase1_no_refuse (parseArgs argv2) cwd2 pr2 w2 cs (by rw [hp, hcon])
      | ok cfg =>
        simp only [hp] at hcon
        unfold scaffold at hcon
        cases hc : copyDir cfg.tTree w2.target with
        | error e =>
          simp only [hc] at hcon
          simp at hcon
        | ok newEntries =>
        simp only [hc] at hcon
        cases hm : mcpStep newEntries (slugify (basenameOf cfg.targetDir)) cfg.runtime with
        | error e =>
          simp only [hm] at hcon
          simp only [Except.error.injEq] at hcon
          exact mcpStep_not_refuse newEntries (slugify (basenameOf cfg.targetDir))
            cfg.runtime cs (by rw [hm, hcon])
        | ok es2 =>
        simp only [hm] at hcon
        cases hk : pkgStep es2 (getDzxVersionOf w2.dzx) with
        | error e =>
          simp only [hk] at hcon
          simp only [Except.error.injEq] at hcon
          exact pkgStep_not_refuse es2 (getDzxVersionOf w2.dzx) cs (by rw [hk, hcon])
        | ok es3 =>
        simp only [hk] at hcon
        cases hsi : shouldInstallOf (parseArgs argv2) with
        | false =>
          simp only [hsi] at hcon
          simp at hcon
        | true =>
        simp only [hsi] at hcon
        cases hl : lookupEntry es3 "package.json" with
        | none =>
          simp only [hl] at hcon
          simp at hcon
        | some u =>
        simp only [hl] at hcon
        cases hio : w2.installOk with
        | true =>
          simp only [hio] at hcon
          simp at hcon
        | false =>
          simp only [hio] at hcon
          simp at hcon

/-- Witness for C3: the end-to-end argv against a world whose target
directory holds `x.txt` fails with `DirectoryNotEmpty` and leaves the
world untouched. -/
theorem run_dirNotEmpty_witness :
    ∃ d, (runMain c1Argv [] pr0 c3W).result = .error (.dirNotEmpty d) ∧
      (runMain c1Argv [] pr0 c3W).world = c3W ∧
      (runMain c1Argv [] pr0 c3W).world.target = c3W.target ∧
      (runMain c1Argv [] pr0 c3W).spawned = [] :=
  run_dirNotEmpty c1Argv [] pr0 c3W (by decide) (by decide) (by decide) (by decide)
    (by decide) ⟨[("x.txt", .file (.rawFile "v"))], rfl, List.cons_ne_nil _ _⟩

/-- Witness for C7 against a world with a conflicting `a.txt`. -/
theorem dirNotEmpty_message_spec_witness :
    ∃ d, (runMain c1Argv [] pr0 c7W).result = .error (.dirNotEmpty d) ∧
      listedEntries (.dirNotEmpty d) = [] ∧
      hasTruncationMark (.dirNotEmpty d) = false :=
  (dirNotEmpty_message_spec c1Argv [] pr0 c7W (by decide) (by decide) (by decide)
    (by decide) (by decide)
    ⟨[("a.txt", .file (.rawFile "U"))], rfl, List.cons_ne_nil _ _⟩).1

/-- Counterexample for C7 as stated: without force and with a non-empty
destination whose `a.txt` conflicts with the template, the failure that
occurs is the `DirectoryNotEmpty` of the emptiness check, which lists no
conflicting entries in its message — although exactly one conflicting
entry exists (well under the display cap of 8). -/
theorem dirNotEmpty_no_listing_counterexample :
    (runMain c1Argv [] pr0 c7W).result = .error (.dirNotEmpty ["out"]) ∧
    listedEntries (.dirNotEmpty ["out"]) = [] ∧
    (listFiles (.dir [("a.txt", .file (.rawFile "T"))])).filter
      (fun p => existsAt c7W.target p) = [["a.txt"]] := by
  refine ⟨rfl, rfl, rfl⟩

/-! ## Lemmas: listing ignores file contents (for claim C1) -/

mutual

theorem listEntry_erase (n : String) (t : FSTree) :
    listEntry n (eraseTree t) = listEntry n t := by
  match t with
  | .file c => rfl
  | .dir ses =>
    show listEntry n (.dir (eraseEntries ses)) = _
    unfold listEntry
    rw [listBlocks_erase ses]

theorem listBlocks_erase (es : List (String × FSTree)) :
    listBlocks (eraseEntries es) = listBlocks es := by
  match es with
  | [] => rfl
  | (m, t) :: rest =>
    show (m, listEntry m (eraseTree t)) :: listBlocks (eraseEntries rest) = _
    rw [listEntry_erase m t, listBlocks_erase rest]
    rfl

end

theorem listFiles_congr (es1 es2 : List (String × FSTree))
    (h : eraseEntries es1 = eraseEntries es2) :
    listFiles (.dir es1) = listFiles (.dir es2) := by
  show ((sortByKey (listBlocks es1)).map Prod.snd).flatten =
    ((sortByKey (listBlocks es2)).map Prod.snd).flatten
  rw [← listBlocks_erase es1, ← listBlocks_erase es2, h]

theorem erase_setEntry_file (es : List (String × FSTree)) (n : String)
    (c : FileContent) (c2 : FileContent)
    (h : lookupEntry es n = some (.file c)) :
    eraseEntries (setEntry es n (.file c2)) = eraseEntries es := by
  induction es with
  | nil => cases h
  | cons p rest ih =>
    obtain ⟨m, u⟩ := p
    simp only [lookupEntry] at h
    by_cases hm : m = n
    · rw [if_pos hm] at h
      simp only [Option.some.injEq] at h
      subst hm
      simp only [setEntry, if_pos rfl, eraseEntries, eraseTree]
      rw [h]
      rfl
    · rw [if_neg hm] at h
      simp only [setEntry, if_neg hm, eraseEntries, ih h]

/-! ## Lemmas: the manifest steps preserve the listing (claim C1) -/

theorem entryIsJsonObjFile_cases (b : Option FSTree)
    (h : entryIsJsonObjFile b = true) :
    b = none ∨ ∃ m nl, b = some (.file (.jsonFile (.obj m) nl)) := by
  match b with
  | none => exact Or.inl rfl
  | some (.file (.jsonFile (.obj m) nl)) => exact Or.inr ⟨m, nl, rfl⟩
  | some (.file (.jsonFile .null nl)) => exact Bool.noConfusion h
  | some (.file (.jsonFile (.bool _) nl)) => exact Bool.noConfusion h
  | some (.file (.jsonFile (.num _) nl)) => exact Bool.noConfusion h
  | some (.file (.jsonFile (.str _) nl)) => exact Bool.noConfusion h
  | some (.file (.jsonFile (.arr _) nl)) => exact Bool.noConfusion h
  | some (.file (.rawFile _)) => exact Bool.noConfusion h
  | some (.dir _) => exact Bool.noConfusion h

theorem mcpStep_spec (es : List (String × FSTree)) (nm rt : String)
    (h : entryIsJsonObjFile (lookupEntry es "mcp.json") = true) :
    ∃ es2, mcpStep es nm rt = .ok es2 ∧ eraseEntries es2 = eraseEntries es ∧
      (∀ k, k ≠ "mcp.json" → lookupEntry es2 k = lookupEntry es k) ∧
      (∀ c, lookupEntry es "mcp.json" = some (.file c) →
        ∃ flds nl2,
          lookupEntry es2 "mcp.json" = some (.file (.jsonFile (.obj flds) nl2)) ∧
          objGet flds "runtime" = some (.str rt) ∧
          objGet flds "name" = some (.str nm)) := by
  rcases entryIsJsonObjFile_cases _ h with hnone | ⟨m, nl, hsome⟩
  · refine ⟨es, by simp only [mcpStep, hnone], rfl, fun k _ => rfl, ?_⟩
    intro c hc
    rw [hnone] at hc
    cases hc
  · refine ⟨setEntry es "mcp.json" (.file (.jsonFile (.obj
      (objSet (objSet m "name" (.str nm)) "runtime" (.str rt))) false)), ?_, ?_, ?_, ?_⟩
    · simp only [mcpStep, hsome, mcpPatch]
    · exact erase_setEntry_file es "mcp.json" _ _ hsome
    · exact fun k hk => lookup_setEntry_ne es "mcp.json" _ k hk
    · intro c hc
      refine ⟨objSet (objSet m "name" (.str nm)) "runtime" (.str rt), false, ?_, ?_, ?_⟩
      · rw [lookup_setEntry_same]
      · rw [objGet_objSet_same]
      · rw [objGet_objSet_ne _ _ _ _ (by decide), objGet_objSet_same]

theorem pkgStep_preserves (es : List (String × FSTree)) (ver : String)
    (h : entryIsJsonObjFile (lookupEntry es "package.json") = true) :
    ∃ es3, pkgStep es ver = .ok es3 ∧ eraseEntries es3 = eraseEntries es ∧
      (∀ k, k ≠ "package.json" → lookupEntry es3 k = lookupEntry es k) := by
  rcases entryIsJsonObjFile_cases _ h with hnone | ⟨m, nl, hsome⟩
  · exact ⟨es, by simp only [pkgStep, hnone], rfl, fun k _ => rfl⟩
  · cases hd : objGet m "dependencies" with
    | none =>
      exact ⟨es, by simp only [pkgStep, hsome, pkgPatch, hd], rfl, fun k _ => rfl⟩
    | some depsJ =>
      cases depsJ with
      | null =>
        exact ⟨es, by simp only [pkgStep, hsome, pkgPatch, hd], rfl, fun k _ => rfl⟩
      | bool b =>
        exact ⟨es, by simp only [pkgStep, hsome, pkgPatch, hd], rfl, fun k _ => rfl⟩
      | num n =>
        exact ⟨es, by simp only [pkgStep, hsome, pkgPatch, hd], rfl, fun k _ => rfl⟩
      | str s =>
        exact ⟨es, by simp only [pkgStep, hsome, pkgPatch, hd], rfl, fun k _ => rfl⟩
      | arr xs =>
        exact ⟨es, by simp only [pkgStep, hsome, pkgPatch, hd], rfl, fun k _ => rfl⟩
      | obj deps =>
        cases hz : objGet deps "@dwizi/dzx" with
        | none =>
          exact ⟨es, by simp only [pkgStep, hsome, pkgPatch, hd, hz], rfl,
            fun k _ => rfl⟩
        | some v =>
          cases ht : jsTruthy v with
          | false =>
            exact ⟨es, by simp [pkgStep, hsome, pkgPatch, hd, hz, ht], rfl,
              fun k _ => rfl⟩
          | true =>
            refine ⟨setEntry es "package.json" (.file (.jsonFile (.obj
              (objSet m "dependencies" (.obj (objSet deps "@dwizi/dzx"
                (.str ("^" ++ ver)))))) true)), ?_, ?_, ?_⟩
            · simp [pkgStep, hsome, pkgPatch, hd, hz, ht]
            · exact erase_setEntry_file es "package.json" _ _ hsome
            · exact fun k hk => lookup_setEntry_ne es _ _ k hk

/-! ## Lemmas: the successful pre-copy phase and the end-to-end run -/

theorem phase1_ok (a : ParsedArgs) (cwd : List String) (pr : Prompts) (w : World)
    (targetDir : List String) (tv rv : ArgVal) (template runtime : String)
    (ttree : FSTree)
    (h1 : resolveTargetDir a (truthyKey a "yes") pr cwd = .ok targetDir)
    (h2 : resolveChoice (getKey? a.keys "template") (truthyKey a "yes") "basic"
      pr.templateResponse = .ok tv)
    (h3 : resolveChoice (getKey? a.keys "runtime") (truthyKey a "yes") "node"
      pr.runtimeResponse = .ok rv)
    (h4 : checkTemplate tv = .ok template)
    (h5 : checkRuntime rv = .ok runtime)
    (h6 : isEmptyDirM w.target = .ok true)
    (h7 : templateLookup w template = some ttree)
    (h8 : confirmCheck a pr = .ok ())
    (h9 : collisionCheck a w ttree = .ok ()) :
    phase1 a cwd pr w = .ok ⟨targetDir, template, runtime, ttree⟩ := by
  simp only [phase1, h1, h2, h3, h4, h5, h6, h7, h8, h9]
  simp

theorem basename_resolve_out (cwd : List String) :
    basenameOf (resolvePath cwd "./out") = "out" := by
  have h0 : resolvePath cwd "./out" = normalizeSegs cwd [".", "out"] := rfl
  have h1 : normalizeSegs cwd [".", "out"] = cwd ++ ["out"] := by
    show normalizeSegs cwd [".", "out"] = cwd ++ ["out"]
    rw [show normalizeSegs cwd [".", "out"] = normalizeSegs cwd ["out"] from by
      simp [normalizeSegs]]
    simp [normalizeSegs]
  rw [h0, h1]
  unfold basenameOf
  rw [List.getLast?_concat]
  rfl

/-- Claim C1: the non-interactive end-to-end invocation
`--dir ./out --template tools-only --runtime node --yes --no-install`,
given a well-formed `tools-only` template at the resolved templates root
(whose manifests, when present, are JSON objects) and an empty or
nonexistent `./out`, succeeds, spawns no child process, and leaves at
the target a tree whose relative file-path set equals the template's;
when the template carries an `mcp.json` file, the target's `mcp.json`
has `runtime` set to `"node"` and `name` set to `slugify "out"`. -/
theorem end_to_end_scaffold (cwd : List String) (pr : Prompts) (w : World)
    (tes : List (String × FSTree))
    (hroot : templateLookup w "tools-only" = some (.dir tes))
    (hwf : wfTree (.dir tes) = true)
    (hman : manifestsOk tes = true)
    (htgt : w.target = none ∨ w.target = some (.dir [])) :
    (runMain c1Argv cwd pr w).result = .ok () ∧
    (runMain c1Argv cwd pr w).spawned = [] ∧
    ∃ out, (runMain c1Argv cwd pr w).world.target = some (.dir out) ∧
      (listFiles (.dir out)).toFinset = (listFiles (.dir tes)).toFinset ∧
      (∀ c, lookupEntry tes "mcp.json" = some (.file c) →
        ∃ flds nl2,
          lookupEntry out "mcp.json" = some (.file (.jsonFile (.obj flds) nl2)) ∧
          objGet flds "runtime" = some (.str "node") ∧
          objGet flds "name" = some (.str (slugify "out"))) := by
  have h6 : isEmptyDirM w.target = .ok true := by
    rcases htgt with h | h
    · rw [h]
      rfl
    · rw [h]
      rfl
  have h9 : collisionCheck (parseArgs c1Argv) w (.dir tes) = .ok () :=
    collisionCheck_empty_target (parseArgs c1Argv) w tes htgt
  have hp : phase1 (parseArgs c1Argv) cwd pr w =
      .ok ⟨resolvePath cwd "./out", "tools-only", "node", .dir tes⟩ :=
    phase1_ok (parseArgs c1Argv) cwd pr w (resolvePath cwd "./out")
      (.str "tools-only") (.str "node") "tools-only" "node" (.dir tes)
      rfl rfl rfl rfl rfl h6 hroot rfl h9
  have hcopy : copyDir (.dir tes) w.target = .ok tes :=
    copyDir_into_empty tes w.target hwf htgt
  have hm : entryIsJsonObjFile (lookupEntry tes "mcp.json") = true ∧
      entryIsJsonObjFile (lookupEntry tes "package.json") = true := by
    simpa [manifestsOk, Bool.and_eq_true] using hman
  obtain ⟨es2, hmcp, herase2, hlk2, hfield⟩ :=
    mcpStep_spec tes (slugify (basenameOf (resolvePath cwd "./out"))) "node" hm.1
  have hpkgOk : entryIsJsonObjFile (lookupEntry es2 "package.json") = true := by
    rw [hlk2 _ (by decide)]
    exact hm.2
  obtain ⟨es3, hpkg, herase3, hlk3⟩ :=
    pkgStep_preserves es2 (getDzxVersionOf w.dzx) hpkgOk
  have e1 : runMain c1Argv cwd pr w =
      scaffold (parseArgs c1Argv)
        ⟨resolvePath cwd "./out", "tools-only", "node", .dir tes⟩ w := by
    show (match phase1 (parseArgs c1Argv) cwd pr w with
          | .error e =>
            ({ result := .error e, world := w, helpShown := false,
               spawned := [] } : MainOut)
          | .ok cfg => scaffold (parseArgs c1Argv) cfg w) = _
    rw [hp]
  have hsi : shouldInstallOf (parseArgs c1Argv) = false := rfl
  have hrun : runMain c1Argv cwd pr w =
      { result := .ok (), world := { w with target := some (.dir es3) },
        helpShown := false, spawned := [] } := by
    rw [e1]
    unfold scaffold
    simp only [hcopy, hmcp, hpkg, hsi]
    simp
  refine ⟨by rw [hrun], by rw [hrun], es3, by rw [hrun], ?_, ?_⟩
  · rw [listFiles_congr es3 tes (herase3.trans herase2)]
  · intro c hc
    obtain ⟨flds, nl2, hlf, hr, hn⟩ := hfield c hc
    refine ⟨flds, nl2, ?_, hr, ?_⟩
    · rw [hlk3 _ (by decide)]
      exact hlf
    · rw [basename_resolve_out cwd] at hn
      exact hn

/-- Witness for C1 on a concrete template with both manifests. -/
theorem end_to_end_scaffold_witness :
    (runMain c1Argv ["home"] pr0 c1W).result = .ok () ∧
    (runMain c1Argv ["home"] pr0 c1W).spawned = [] :=
  ⟨(end_to_end_scaffold ["home"] pr0 c1W c1Tes rfl (by decide) (by decide)
      (Or.inl rfl)).1,
   (end_to_end_scaffold ["home"] pr0 c1W c1Tes rfl (by decide) (by decide)
      (Or.inl rfl)).2.1⟩

end CreateDzx
